import Mathlib

/-!
Verification of the log-scanning and aggregation pipelines of the repository
(`analyze.py`, the weekly summary pipeline, and `extract.py`, the flat
conversation exporter) against its natural-language specification.

The Python sources are shallowly embedded: Python strings are `List Char`
(`PyStr`), decoded JSON values are `JValue`, `datetime` objects are
`PyDateTime`, and code that can raise exceptions past a handler is modelled
with `Except PyErr` (an escaping exception) or with explicit
state-plus-error results where Python keeps the partially mutated state.
Suffix `_A` marks definitions embedding `analyze.py`, `_E` those embedding
`extract.py`; shared library behaviour (`str.replace`, `str.title`,
`datetime.fromisoformat`, ...) is embedded once.
-/

/-- Python strings are modelled as lists of characters. -/
abbrev PyStr := List Char

/-- Conversion from Lean string literals to the Python string model. -/
def pystr (s : String) : PyStr := s.toList

/-- Exceptions that can escape an expression in the embedded fragments.
`json.JSONDecodeError` is represented separately (see `RawLine`), because the
sources always catch it at the line level. -/
inductive PyErr where
  | attributeError
  | typeError
  | valueError
deriving DecidableEq

/-- Whitespace test used by Python `str.strip` (restricted to the ASCII
whitespace characters, which is exact for all data handled here). -/
def isPySpace (c : Char) : Bool :=
  c = ' ' || c = '\t' || c = '\n' || c = '\x0d' || c = '\x0b' || c = '\x0c'

/-- Python `str.lstrip()`. -/
def pyLStrip (s : PyStr) : PyStr := s.dropWhile isPySpace

/-- Python `str.rstrip()`. -/
def pyRStrip (s : PyStr) : PyStr := (s.reverse.dropWhile isPySpace).reverse

/-- Python `str.strip()`. -/
def pyStrip (s : PyStr) : PyStr := pyRStrip (pyLStrip s)

/-- Python string comparison `s <= t`: lexicographic on code points. -/
def pyStrLe : PyStr → PyStr → Bool
  | [], _ => true
  | _ :: _, [] => false
  | a :: as, b :: bs =>
    if a.toNat < b.toNat then true
    else if b.toNat < a.toNat then false
    else pyStrLe as bs

/-- Helper for Python `str.replace`, structurally recursive on a fuel
argument that starts at the string length (enough, since each step consumes
at least one character). -/
def pyReplaceGo (old new : PyStr) : Nat → PyStr → PyStr
  | 0, s => s
  | _ + 1, [] => []
  | fuel + 1, c :: cs =>
    if old ≠ [] && old.isPrefixOf (c :: cs) then
      new ++ pyReplaceGo old new fuel ((c :: cs).drop old.length)
    else
      c :: pyReplaceGo old new fuel cs

/-- Python `s.replace(old, new)`: replaces all non-overlapping occurrences of
`old`, scanning left to right.  Only called with non-empty `old` in the
sources. -/
def pyReplace (s old new : PyStr) : PyStr := pyReplaceGo old new s.length s

/-- Python `s.split(sep)` for a one-character separator: keeps empty pieces. -/
def pySplitChar (sep : Char) : PyStr → List PyStr
  | [] => [[]]
  | c :: cs =>
    match pySplitChar sep cs with
    | [] => if c = sep then [[], []] else [[c]]
    | piece :: rest => if c = sep then [] :: piece :: rest else (c :: piece) :: rest

/-- Model of `pathlib.Path(path).name`: the last non-empty `/`-separated
segment of the path (empty when there is none). -/
def pathName (s : PyStr) : PyStr :=
  (pySplitChar '/' s).foldl (fun acc seg => if seg.isEmpty then acc else seg) []

/-- Helper for Python `str.title`: tracks whether the previous character was
alphabetic. -/
def pyTitleGo : Bool → PyStr → PyStr
  | _, [] => []
  | prevAlpha, c :: cs =>
    (if c.isAlpha then (if prevAlpha then c.toLower else c.toUpper) else c)
      :: pyTitleGo c.isAlpha cs

/-- Python `str.title()` (ASCII letters, which is exact for the data here). -/
def pyTitle (s : PyStr) : PyStr := pyTitleGo false s

/-- Decimal digits of a natural number, via fuel (the fuel `n + 1` always
suffices because the argument shrinks by a factor of ten each step). -/
def natToPyStrGo : Nat → Nat → PyStr
  | 0, _ => []
  | fuel + 1, n =>
    if n < 10 then [Char.ofNat (48 + n)]
    else natToPyStrGo fuel (n / 10) ++ [Char.ofNat (48 + n % 10)]

/-- Python `str(n)` for a non-negative integer. -/
def natToPyStr (n : Nat) : PyStr := natToPyStrGo (n + 1) n

/-- Python `str(n)` for an integer. -/
def intToPyStr (n : Int) : PyStr :=
  if n < 0 then '-' :: natToPyStr n.natAbs else natToPyStr n.natAbs

/-- Zero-padded decimal rendering, as produced by `strftime`/`isoformat`
field formatting. -/
def padNum (width n : Nat) : PyStr :=
  List.replicate (width - (natToPyStr n).length) '0' ++ natToPyStr n

/-- Python `sep.join(pieces)` for string pieces. -/
def joinWith (sep : PyStr) : List PyStr → PyStr
  | [] => []
  | [s] => s
  | s :: rest => s ++ sep ++ joinWith sep rest

/-- Decoded JSON values, as returned by `json.loads`.  An `obj` models a
Python dict produced by the JSON decoder, so its keys are distinct. -/
inductive JValue where
  | null
  | bool (b : Bool)
  | int (n : Int)
  | str (s : PyStr)
  | arr (elems : List JValue)
  | obj (fields : List (PyStr × JValue))

/-- Python truthiness of a decoded JSON value. -/
def truthy : JValue → Bool
  | .null => false
  | .bool b => b
  | .int n => n != 0
  | .str s => !s.isEmpty
  | .arr l => !l.isEmpty
  | .obj l => !l.isEmpty

/-- Python `d.get(key, default)` on a dict represented as a field list. -/
def dictGet : List (PyStr × JValue) → PyStr → JValue → JValue
  | [], _, dflt => dflt
  | (k, v) :: rest, key, dflt => if k = key then v else dictGet rest key dflt

/-- Model of a Python `datetime` value: calendar fields plus an optional
fixed UTC offset in minutes (`none` models a zone-naive datetime). -/
structure PyDateTime where
  year : Nat
  month : Nat
  day : Nat
  hour : Nat
  minute : Nat
  second : Nat
  usec : Nat
  tzOffsetMinutes : Option Int
deriving DecidableEq

/-- Gregorian leap-year test. -/
def leapYear (y : Nat) : Bool := (y % 4 == 0 && y % 100 != 0) || y % 400 == 0

/-- Number of days in a month. -/
def monthDays (y m : Nat) : Nat :=
  if m = 2 then (if leapYear y then 29 else 28)
  else if m = 4 || m = 6 || m = 9 || m = 11 then 30
  else 31

/-- Days in months `1, ..., m - 1` of year `y`. -/
def daysBeforeMonth (y : Nat) : Nat → Nat
  | 0 => 0
  | 1 => 0
  | m + 1 => daysBeforeMonth y m + monthDays y m

/-- Day ordinal of a calendar date (proleptic Gregorian, day 0 = Jan 1 of
year 1), matching Python's `datetime.toordinal` up to the constant 1. -/
def dayOrdinal (y m d : Nat) : Nat :=
  365 * (y - 1) + (y - 1) / 4 - (y - 1) / 100 + (y - 1) / 400
    + daysBeforeMonth y m + (d - 1)

/-- Microseconds of the wall-clock reading since the epoch of `dayOrdinal`,
ignoring the zone offset.  Python compares two naive datetimes exactly by
this value. -/
def naiveUsec (dt : PyDateTime) : Int :=
  ((((dayOrdinal dt.year dt.month dt.day * 24 + dt.hour) * 60 + dt.minute) * 60
      + dt.second : Nat) : Int) * 1000000 + (dt.usec : Int)

/-- Comparison value of a datetime: the UTC instant for aware datetimes and
the wall-clock reading for naive ones.  Python compares two datetimes of the
same kind exactly by this value. -/
def dtSortVal (dt : PyDateTime) : Int :=
  naiveUsec dt - dt.tzOffsetMinutes.getD 0 * 60000000

/-- Python comparison `a < b` on datetimes: raises `TypeError` when exactly
one of the two carries a zone offset. -/
def pyLtDT (a b : PyDateTime) : Except PyErr Bool :=
  if a.tzOffsetMinutes.isSome = b.tzOffsetMinutes.isSome then
    .ok (decide (dtSortVal a < dtSortVal b))
  else .error .typeError

/-- Parse exactly `n` decimal digits, returning their value and the rest. -/
def parseNDigits : Nat → Nat → PyStr → Option (Nat × PyStr)
  | 0, acc, s => some (acc, s)
  | _ + 1, _, [] => none
  | n + 1, acc, c :: cs =>
    if c.isDigit then parseNDigits n (acc * 10 + (c.toNat - 48)) cs else none

/-- Consume one expected character. -/
def expectChar (c : Char) : PyStr → Option PyStr
  | [] => none
  | x :: xs => if x = c then some xs else none

/-- Parse the fractional-seconds part of an ISO string: exactly three or six
digits, yielding microseconds. -/
def parseFracUsec (s : PyStr) : Option (Nat × PyStr) :=
  let digs := s.takeWhile Char.isDigit
  let rest := s.dropWhile Char.isDigit
  let val := digs.foldl (fun acc c => acc * 10 + (c.toNat - 48)) 0
  if digs.length = 3 then some (val * 1000, rest)
  else if digs.length = 6 then some (val, rest)
  else none

/-- Parse the time-of-day part `HH[:MM[:SS[.ffffff]]]` of an ISO string. -/
def parseTimePart (s : PyStr) : Option (Nat × Nat × Nat × Nat × PyStr) := do
  let (h, s) ← parseNDigits 2 0 s
  match s with
  | ':' :: s => do
    let (m, s) ← parseNDigits 2 0 s
    match s with
    | ':' :: s => do
      let (sec, s) ← parseNDigits 2 0 s
      match s with
      | '.' :: s => do
        let (us, s) ← parseFracUsec s
        pure (h, m, sec, us, s)
      | _ => pure (h, m, sec, 0, s)
    | _ => pure (h, m, 0, 0, s)
  | _ => pure (h, 0, 0, 0, s)

/-- Parse the trailing fixed-offset part `±HH:MM[:SS]` of an ISO string, or
no offset at all; anything else fails. -/
def parseOffsetPart (s : PyStr) : Option (Option Int) :=
  match s with
  | [] => some none
  | sign :: s =>
    if sign = '+' || sign = '-' then
      match parseNDigits 2 0 s with
      | none => none
      | some (oh, s) =>
        match expectChar ':' s with
        | none => none
        | some s =>
          match parseNDigits 2 0 s with
          | none => none
          | some (om, s) =>
            if s = [] && oh * 60 + om ≤ 1439 && om ≤ 59 then
              some (some (if sign = '-' then -((oh * 60 + om : Nat) : Int)
                          else ((oh * 60 + om : Nat) : Int)))
            else none
    else none

/-- Model of `datetime.fromisoformat` (as in the CPython versions this code
targets, where a trailing `Z` is not accepted and is replaced by the callers
beforehand): `YYYY-MM-DD`, optionally followed by one separator character
and `HH[:MM[:SS[.fff|.ffffff]]]`, optionally followed by `±HH:MM`.  Returns
`none` where CPython raises `ValueError`. -/
def fromisoformat (s : PyStr) : Option PyDateTime := do
  let (y, s) ← parseNDigits 4 0 s
  let s ← expectChar '-' s
  let (mo, s) ← parseNDigits 2 0 s
  let s ← expectChar '-' s
  let (d, s) ← parseNDigits 2 0 s
  if mo < 1 || 12 < mo then none
  else if d < 1 || monthDays y mo < d then none
  else
    match s with
    | [] => pure ⟨y, mo, d, 0, 0, 0, 0, none⟩
    | _ :: rest => do
      let (h, mi, sec, us, s) ← parseTimePart rest
      if 23 < h || 59 < mi || 59 < sec then none
      else do
        let off ← parseOffsetPart s
        pure ⟨y, mo, d, h, mi, sec, us, off⟩

/-- Python `datetime.isoformat()`: `YYYY-MM-DDTHH:MM:SS`, with `.ffffff`
only when microseconds are non-zero, and `±HH:MM` for aware datetimes. -/
def isoformat (dt : PyDateTime) : PyStr :=
  padNum 4 dt.year ++ pystr "-" ++ padNum 2 dt.month ++ pystr "-" ++ padNum 2 dt.day
    ++ pystr "T" ++ padNum 2 dt.hour ++ pystr ":" ++ padNum 2 dt.minute
    ++ pystr ":" ++ padNum 2 dt.second
    ++ (if dt.usec ≠ 0 then pystr "." ++ padNum 6 dt.usec else [])
    ++ (match dt.tzOffsetMinutes with
        | none => []
        | some off =>
          (if off < 0 then pystr "-" else pystr "+")
            ++ padNum 2 (off.natAbs / 60) ++ pystr ":" ++ padNum 2 (off.natAbs % 60))

/-- Python `dt.strftime('%Y-%m-%d')`. -/
def strfDate (dt : PyDateTime) : PyStr :=
  padNum 4 dt.year ++ pystr "-" ++ padNum 2 dt.month ++ pystr "-" ++ padNum 2 dt.day

/-- Python `dt.strftime('%H:%M')`. -/
def strfTime (dt : PyDateTime) : PyStr :=
  padNum 2 dt.hour ++ pystr ":" ++ padNum 2 dt.minute

/-- Python `datetime.min`: midnight of January 1 of year 1, zone-naive. -/
def dtMin : PyDateTime := ⟨1, 1, 1, 0, 0, 0, 0, none⟩

/-- Body of `parse_timestamp` in `analyze.py` before the `except` handler:
`datetime.fromisoformat(ts_str.replace('Z', '+00:00'))`.  A non-string
argument raises `AttributeError` at `.replace`, an unparsable string raises
`ValueError` inside `fromisoformat`. -/
def parse_timestamp_body_A (v : JValue) : Except PyErr PyDateTime :=
  match v with
  | .str s =>
    match fromisoformat (pyReplace s (pystr "Z") (pystr "+00:00")) with
    | some dt => .ok dt
    | none => .error .valueError
  | _ => .error .attributeError

/-- The `parse_timestamp` of `analyze.py`: the body wrapped in
`try ... except: return None`, which swallows every exception. -/
def parse_timestamp_A (v : JValue) : Option PyDateTime :=
  (parse_timestamp_body_A v).toOption

/-- Body of `parse_timestamp` in `extract.py` before the `except` handler:
`datetime.fromisoformat(ts_str.replace('Z', '+00:00').replace('+00:00', ''))`,
which strips a trailing `Z` or `+00:00` to a naive datetime but keeps any
other fixed offset. -/
def parse_timestamp_body_E (v : JValue) : Except PyErr PyDateTime :=
  match v with
  | .str s =>
    match fromisoformat (pyReplace (pyReplace s (pystr "Z") (pystr "+00:00"))
        (pystr "+00:00") []) with
    | some dt => .ok dt
    | none => .error .valueError
  | _ => .error .attributeError

/-- The `parse_timestamp` of `extract.py`: body wrapped in a bare
`except: return None`. -/
def parse_timestamp_E (v : JValue) : Option PyDateTime :=
  (parse_timestamp_body_E v).toOption

/-- Root directory constant `PROJECTS_DIR`, and the string
`str(project_path)` for a project directory entry named `name`. -/
def projPathStr (name : PyStr) : PyStr :=
  pystr "/Users/larry/.claude/projects/" ++ name

/-- The `get_project_name` of `analyze.py`: splits the path on `/`, and only
when some whole segment equals `-Users-larry` does it humanize the following
segment (dashes to spaces, then `str.title`); otherwise it falls back to
`Path(path).name`. -/
def get_project_name_A (path : PyStr) : PyStr :=
  let parts := pySplitChar '/' path
  match parts.findIdx? (fun seg => seg = pystr "-Users-larry") with
  | some idx =>
    if idx + 1 < parts.length then
      pyTitle (pyReplace ((parts.drop (idx + 1)).headD []) (pystr "-") (pystr " "))
    else pathName path
  | none => pathName path

/-- Match of the regex `^Users\s*Larry\s*` against the start of a string,
returning the remainder after the match.  The greedy `\s*` needs no
backtracking here because `L` and the end anchor are not whitespace. -/
def matchUsersLarry (s : PyStr) : Option PyStr :=
  if (pystr "Users").isPrefixOf s then
    let r := (s.drop 5).dropWhile isPySpace
    if (pystr "Larry").isPrefixOf r then
      some ((r.drop 5).dropWhile isPySpace)
    else none
  else none

/-- Python `re.sub(r'^Users\s*Larry\s*', '', name)`. -/
def reSubUsersLarry (s : PyStr) : PyStr := (matchUsersLarry s).getD s

/-- The `get_project_name` of `extract.py`: like the `analyze.py` version but
additionally strips a leading `Users Larry` from the humanized name and
substitutes `Root` when the stripped name is empty. -/
def get_project_name_E (path : PyStr) : PyStr :=
  let parts := pySplitChar '/' path
  match parts.findIdx? (fun seg => seg = pystr "-Users-larry") with
  | some idx =>
    if idx + 1 < parts.length then
      let name := pyTitle (pyReplace ((parts.drop (idx + 1)).headD []) (pystr "-") (pystr " "))
      let name := reSubUsersLarry name
      let stripped := pyStrip name
      if stripped.isEmpty then pystr "Root" else stripped
    else pathName path
  | none => pathName path

/-- The `get_file_age_days` computation shared by both sources: with the
current time and the file's modification time as epoch seconds,
`(datetime.now() - file_date).days` is the floor of the elapsed seconds over
86400 (`timedelta.days` floors toward minus infinity). -/
def getFileAgeDays (now mtime : Int) : Int := (now - mtime).fdiv 86400

/-- Outcome of reading one line of a log file and passing it to
`json.loads`: a line whose `strip()` is empty, a line on which `json.loads`
raises `JSONDecodeError`, or the decoded JSON value. -/
inductive RawLine where
  | blank
  | badJson
  | val (v : JValue)

/-- A log file of a project directory: its name, its filesystem modification
time (epoch seconds) and its decoded lines. -/
structure FileEntry where
  name : PyStr
  mtime : Int
  lines : List RawLine

/-- A top-level entry of the projects directory: its name, whether it is a
directory, and the files it contains (in directory enumeration order, the
order `Path.glob` yields matches). -/
structure ProjectDir where
  name : PyStr
  isDir : Bool
  files : List FileEntry

/-- Name filter of the glob `*.jsonl` (glob does not match hidden names). -/
def isJsonlName (name : PyStr) : Bool :=
  (pystr ".jsonl").isSuffixOf name && !(pystr ".").isPrefixOf name

/-- Name filter of the glob `agent-*.jsonl`. -/
def isAgentJsonlName (name : PyStr) : Bool :=
  (pystr "agent-").isPrefixOf name && (pystr ".jsonl").isSuffixOf name

/-- One element of `data['entries']` in `analyze_jsonl_file`. -/
structure AnalyzedEntry where
  timestamp : PyDateTime
  type : JValue
  messageId : JValue

/-- The accumulator dict `data` of `analyze_jsonl_file`. -/
structure FileData where
  entries : List AnalyzedEntry
  first_timestamp : Option PyDateTime
  last_timestamp : Option PyDateTime
  message_count : Nat

/-- Initial value of `data` in `analyze_jsonl_file`. -/
def analyzeInit : FileData := ⟨[], none, none, 0⟩

/-- The timestamp argument expression of `analyze.py` line 55:
`entry.get('snapshot', {}).get('timestamp') or entry.get('timestamp', '')`.
Evaluated on the fields of a decoded dict; raises `AttributeError` when the
`snapshot` value is present but not a dict (the `or` falls back only on a
falsy first operand, and short-circuits otherwise). -/
def tsArgA (fields : List (PyStr × JValue)) : Except PyErr JValue :=
  match dictGet fields (pystr "snapshot") (.obj []) with
  | .obj sf =>
    let st := dictGet sf (pystr "timestamp") .null
    if truthy st then .ok st else .ok (dictGet fields (pystr "timestamp") (.str []))
  | _ => .error .attributeError

/-- Lines 65-66 of `analyze.py`: `if not data['first_timestamp'] or
timestamp < data['first_timestamp']: data['first_timestamp'] = timestamp`.
The comparison raises `TypeError` on datetimes of different kinds. -/
def updateFirstTs (d : FileData) (ts : PyDateTime) : FileData × Option PyErr :=
  match d.first_timestamp with
  | none => ({ d with first_timestamp := some ts }, none)
  | some firstTs =>
    match pyLtDT ts firstTs with
    | .error e => (d, some e)
    | .ok b => (if b then { d with first_timestamp := some ts } else d, none)

/-- Lines 67-68 of `analyze.py`: `if not data['last_timestamp'] or
timestamp > data['last_timestamp']: data['last_timestamp'] = timestamp`. -/
def updateLastTs (d : FileData) (ts : PyDateTime) : FileData × Option PyErr :=
  match d.last_timestamp with
  | none => ({ d with last_timestamp := some ts }, none)
  | some lastTs =>
    match pyLtDT lastTs ts with
    | .error e => (d, some e)
    | .ok b => (if b then { d with last_timestamp := some ts } else d, none)

/-- Lines 58-63 of `analyze.py`: append the entry record and increment
`message_count`. -/
def countRecord (d : FileData) (fields : List (PyStr × JValue)) (ts : PyDateTime) : FileData :=
  { d with
    entries := d.entries ++
      [⟨ts, dictGet fields (pystr "type") (.str (pystr "unknown")),
        dictGet fields (pystr "messageId") (.str [])⟩],
    message_count := d.message_count + 1 }

/-- One iteration of the line loop of `analyze_jsonl_file` on the current
`data` accumulator.  Returns the accumulator after the iteration together
with the exception, if any, that escapes the inner
`except json.JSONDecodeError` handler; the accumulator keeps all mutations
performed before the raise, as in Python. -/
def analyzeStep (d : FileData) (l : RawLine) : FileData × Option PyErr :=
  match l with
  | .blank => (d, none)
  | .badJson => (d, none)
  | .val entry =>
    match entry with
    | .obj fields =>
      match tsArgA fields with
      | .error e => (d, some e)
      | .ok arg =>
        match parse_timestamp_A arg with
        | none => (d, none)
        | some ts =>
          match updateFirstTs (countRecord d fields ts) ts with
          | (d2, some e) => (d2, some e)
          | (d2, none) => updateLastTs d2 ts
    | _ => (d, some .attributeError)

/-- The line loop of `analyze_jsonl_file`: an exception escaping a line
iteration reaches the function-level `except Exception: pass`, so the
accumulator gathered so far is returned and the remaining lines are lost. -/
def analyzeGo (d : FileData) : List RawLine → FileData
  | [] => d
  | l :: ls =>
    match analyzeStep d l with
    | (d1, none) => analyzeGo d1 ls
    | (d1, some _) => d1

/-- The `analyze_jsonl_file` of `analyze.py`, on the decoded lines of a
file. -/
def analyze_jsonl_file (lines : List RawLine) : FileData :=
  analyzeGo analyzeInit lines

/-- Stable descending insertion used to model Python's stable `sort(...,
reverse=True)` / `sorted(..., reverse=True)`: `ge a b` means `a` may stay
before `b` (its key is greater than or equal). -/
def insertDescLe (ge : α → α → Bool) (x : α) : List α → List α
  | [] => [x]
  | y :: ys => if ge y x then y :: insertDescLe ge x ys else x :: y :: ys

/-- Stable descending sort by the boolean relation `ge`; agrees with
Python's stable descending sort whenever `ge` is the total preorder induced
by the sort key. -/
def sortDescLe (ge : α → α → Bool) : List α → List α
  | [] => []
  | x :: xs => insertDescLe ge x (sortDescLe ge xs)

/-- Whether a list of datetimes is uniformly zone-aware or uniformly
zone-naive.  Python's sort compares elements pairwise, and comparing a naive
with an aware datetime raises `TypeError`; on a list mixing both kinds every
sort algorithm performs at least one such comparison (the first element of
the minority kind is compared against elements of the other kind), while on
a uniform list no comparison raises. -/
def uniformAware (ds : List PyDateTime) : Bool :=
  match ds with
  | [] => true
  | d :: rest => rest.all (fun x => x.tzOffsetMinutes.isSome = d.tzOffsetMinutes.isSome)

/-- Python `list.sort(key=..., reverse=True)` for a datetime-valued key:
raises `TypeError` on a list mixing naive and aware keys, and otherwise
stably sorts by descending key. -/
def pySortDescDT (key : α → PyDateTime) (xs : List α) : Except PyErr (List α) :=
  if uniformAware (xs.map key) then
    .ok (sortDescLe (fun a b => decide (dtSortVal (key b) ≤ dtSortVal (key a))) xs)
  else .error .typeError

/-- One element of a project's `recent_activity` list (a File Summary).
`modified` keeps the filesystem modification instant as epoch seconds; the
naive datetime `datetime.fromtimestamp(mtime)` used by the source orders and
serializes exactly by this value. -/
structure FileSummary where
  filename : PyStr
  age_days : Int
  modified : Int
  messages : Nat
  first_ts : Option PyDateTime
  last_ts : Option PyDateTime

/-- Per-project accumulators of the file loop in `scan_all_projects`. -/
structure ScanAcc where
  recent : List FileSummary
  total : Nat
  earliest : Option PyDateTime
  latest : Option PyDateTime

/-- Whether one file of a project is retained with a positive message count
by the summary pipeline: age at most `WEEK_DAYS = 7` and at least one
counted record. -/
def retainedPositive (now : Int) (f : FileEntry) : Bool :=
  getFileAgeDays now f.mtime ≤ 7 && 0 < (analyze_jsonl_file f.lines).message_count

/-- Lines 113-114 of `analyze.py`: conditional update of `earliest_ts`.
The guard `file_data['first_timestamp'] and (...)` uses datetime truthiness,
which is always true, so it tests presence; the comparison can raise
`TypeError` on datetimes of different kinds, and nothing catches it before
`scan_all_projects` returns, so it is fatal. -/
def updateEarliest (acc : ScanAcc) (ft : Option PyDateTime) : Except PyErr ScanAcc :=
  match ft with
  | none => .ok acc
  | some ft =>
    match acc.earliest with
    | none => .ok { acc with earliest := some ft }
    | some e =>
      match pyLtDT ft e with
      | .error er => .error er
      | .ok b => .ok (if b then { acc with earliest := some ft } else acc)

/-- Lines 115-116 of `analyze.py`: conditional update of `latest_ts` (the
comparison is `file_data['last_timestamp'] > latest_ts`). -/
def updateLatest (acc : ScanAcc) (lt : Option PyDateTime) : Except PyErr ScanAcc :=
  match lt with
  | none => .ok acc
  | some lt =>
    match acc.latest with
    | none => .ok { acc with latest := some lt }
    | some l =>
      match pyLtDT l lt with
      | .error er => .error er
      | .ok b => .ok (if b then { acc with latest := some lt } else acc)

/-- The `recent_activity` element and accumulator additions of lines
103-111 of `analyze.py` for one retained file with a positive count. -/
def appendSummary (now : Int) (acc : ScanAcc) (f : FileEntry) : ScanAcc :=
  let age := getFileAgeDays now f.mtime
  let fd := analyze_jsonl_file f.lines
  { acc with
    recent := acc.recent ++
      [⟨f.name, age, f.mtime, fd.message_count, fd.first_timestamp, fd.last_timestamp⟩],
    total := acc.total + fd.message_count }

/-- One iteration of the file loop of `scan_all_projects` (lines 96-116 of
`analyze.py`). -/
def scanFileStep (now : Int) (acc : ScanAcc) (f : FileEntry) : Except PyErr ScanAcc :=
  let age := getFileAgeDays now f.mtime
  if age ≤ 7 then
    let fd := analyze_jsonl_file f.lines
    if 0 < fd.message_count then do
      let acc1 := appendSummary now acc f
      let acc2 ← updateEarliest acc1 fd.first_timestamp
      updateLatest acc2 fd.last_timestamp
    else pure acc
  else pure acc

/-- The file loop of `scan_all_projects` over the concatenated glob
results. -/
def scanFilesGo (now : Int) (acc : ScanAcc) : List FileEntry → Except PyErr ScanAcc
  | [] => pure acc
  | f :: fs => do scanFilesGo now (← scanFileStep now acc f) fs

/-- A Project Summary of the summary pipeline. -/
structure Project where
  name : PyStr
  path : PyStr
  total_messages : Nat
  files_count : Nat
  earliest_activity : Option PyDateTime
  latest_activity : Option PyDateTime
  files : List FileSummary

/-- Processing of one project directory by `scan_all_projects`: both globs
are concatenated (`all_files = jsonl_files + agent_files`, so a file
matching both patterns is processed twice), the file loop runs, and a
`Project` is produced when `recent_activity` is non-empty, with its file
summaries stably sorted by modification time descending. -/
def scanProject (now : Int) (p : ProjectDir) : Except PyErr (Option Project) := do
  let allFiles := p.files.filter (fun f => isJsonlName f.name)
      ++ p.files.filter (fun f => isAgentJsonlName f.name)
  let acc ← scanFilesGo now ⟨[], 0, none, none⟩ allFiles
  if acc.recent.isEmpty then pure none
  else
    pure (some
      { name := get_project_name_A (projPathStr p.name)
        path := projPathStr p.name
        total_messages := acc.total
        files_count := acc.recent.length
        earliest_activity := acc.earliest
        latest_activity := acc.latest
        files := sortDescLe (fun a b => decide (b.modified ≤ a.modified)) acc.recent })

/-- The project loop of `scan_all_projects`: non-directories and hidden
names are skipped; exceptions propagate (they are fatal to the run). -/
def scanProjectsGo (now : Int) : List ProjectDir → Except PyErr (List Project)
  | [] => pure []
  | p :: ps =>
    if p.isDir && !(pystr ".").isPrefixOf p.name then do
      let r ← scanProject now p
      let rest ← scanProjectsGo now ps
      pure (match r with | some proj => proj :: rest | none => rest)
    else scanProjectsGo now ps

/-- The `scan_all_projects` of `analyze.py`: collect per-project data, then
`projects_data.sort(key=lambda x: x['latest_activity'] or datetime.min,
reverse=True)` (datetimes are always truthy, so `datetime.min` is used
exactly for projects without a latest instant). -/
def scan_all_projects (now : Int) (tree : List ProjectDir) : Except PyErr (List Project) := do
  let pd ← scanProjectsGo now tree
  pySortDescDT (fun p => p.latest_activity.getD dtMin) pd

/-- A Timeline Entry of the Chronology Builder. -/
structure TimelineEntry where
  timestamp : PyDateTime
  project : PyStr
  filename : PyStr
  type : PyStr
  messages : Nat

/-- The up-to-two Timeline Entries emitted by `build_timeline` for one file
summary. -/
def mkTimelineEntries (pname : PyStr) (fs : FileSummary) : List TimelineEntry :=
  (match fs.first_ts with
   | some t => [⟨t, pname, fs.filename, pystr "conversation_start", fs.messages⟩]
   | none => []) ++
  (match fs.last_ts with
   | some t => [⟨t, pname, fs.filename, pystr "last_activity", fs.messages⟩]
   | none => [])

/-- Concatenation over a list, in iteration order. -/
def listConcatMap (f : α → List β) : List α → List β
  | [] => []
  | x :: xs => f x ++ listConcatMap f xs

/-- The unsorted timeline accumulated by the loops of `build_timeline`. -/
def timelineRaw (pd : List Project) : List TimelineEntry :=
  listConcatMap (fun p => listConcatMap (mkTimelineEntries p.name) p.files) pd

/-- The `build_timeline` of `analyze.py`:
`timeline.sort(key=lambda x: x['timestamp'], reverse=True)`. -/
def build_timeline (pd : List Project) : Except PyErr (List TimelineEntry) :=
  pySortDescDT (fun e => e.timestamp) (timelineRaw pd)

/-- Helper for Python `repr` of decoded JSON values nested inside
containers, with a depth fuel (ample for every value appearing in this
development; exotic escaping inside string reprs is not modelled because no
claim depends on it). -/
def pyReprAux : Nat → JValue → PyStr
  | 0, _ => []
  | _ + 1, .null => pystr "None"
  | _ + 1, .bool b => if b then pystr "True" else pystr "False"
  | _ + 1, .int n => intToPyStr n
  | _ + 1, .str s => '\x27' :: s ++ ['\x27']
  | fuel + 1, .arr xs => '[' :: joinWith (pystr ", ") (xs.map (pyReprAux fuel)) ++ [']']
  | fuel + 1, .obj fs =>
    '\x7b' :: joinWith (pystr ", ")
        (fs.map (fun kv => '\x27' :: kv.1 ++ ['\x27'] ++ pystr ": " ++ pyReprAux fuel kv.2))
      ++ ['\x7d']

/-- Python `str(v)` on a decoded JSON value. -/
def pyStrOf : JValue → PyStr
  | .str s => s
  | .int n => intToPyStr n
  | .null => pystr "None"
  | .bool b => if b then pystr "True" else pystr "False"
  | .arr xs => pyReprAux 100 (.arr xs)
  | .obj fs => pyReprAux 100 (.obj fs)

/-- Python `v == "lit"` for a decoded JSON value against a string literal. -/
def jEqStr (v : JValue) (s : String) : Bool :=
  match v with
  | .str t => t = pystr s
  | _ => false

/-- Extract the string elements of a list; `none` when some element is not a
string (the situation in which `'\n'.join` raises `TypeError`). -/
def allStrings : List JValue → Option (List PyStr)
  | [] => some []
  | .str s :: rest => (allStrings rest).map (s :: ·)
  | _ :: _ => none

/-- Python `sep.join(texts)` on a list of decoded values: `TypeError` unless
every element is a string. -/
def joinTexts (sep : PyStr) (vals : List JValue) : Except PyErr PyStr :=
  match allStrings vals with
  | some strs => .ok (joinWith sep strs)
  | none => .error .typeError

/-- The `texts` list collected by the assistant branch of
`extract_message_content`: dict items declared as sub-type `text`
contribute their `text` field (whatever its shape), bare strings contribute
themselves, everything else is ignored. -/
def collectTexts : List JValue → List JValue
  | [] => []
  | .obj itemFields :: rest =>
    if jEqStr (dictGet itemFields (pystr "type") .null) "text" then
      dictGet itemFields (pystr "text") (.str []) :: collectTexts rest
    else collectTexts rest
  | .str s :: rest => .str s :: collectTexts rest
  | _ :: rest => collectTexts rest

/-- The `extract_message_content` of `extract.py`, on the fields of a
decoded dict.  Returns the content string (after the final
`None`-to-empty-string normalization) and the role.  `AttributeError`
escapes when a `user` record's `message` value is not a dict, and
`TypeError` escapes from `'\n'.join` when a collected `text` field is not a
string. -/
def extract_message_content (fields : List (PyStr × JValue)) :
    Except PyErr (PyStr × Option PyStr) :=
  let ty := dictGet fields (pystr "type") .null
  if jEqStr ty "user" then
    match dictGet fields (pystr "message") (.obj []) with
    | .obj msgFields =>
      let cont := dictGet msgFields (pystr "content") (.str [])
      match cont with
      | .arr items => .ok (joinWith (pystr " ") (items.map pyStrOf), some (pystr "user"))
      | _ => .ok (if truthy cont then pyStrOf cont else [], some (pystr "user"))
    | _ => .error .attributeError
  else if jEqStr ty "assistant" || jEqStr ty "message" then
    match dictGet fields (pystr "message") (.obj []) with
    | .obj msgFields =>
      let cont := dictGet msgFields (pystr "content") (.arr [])
      match cont with
      | .arr items => do
        let joined ← joinTexts (pystr "\n") (collectTexts items)
        pure (pyStrip joined, some (pystr "assistant"))
      | _ => .ok (if truthy cont then pyStrOf cont else [], some (pystr "assistant"))
    | _ => .ok ([], some (pystr "assistant"))
  else .ok ([], none)

/-- The timestamp argument expression of `extract.py` line 95:
`entry.get('timestamp') or entry.get('snapshot', {}).get('timestamp', '')` —
the top-level field is preferred, with the snapshot field as fallback. -/
def tsArgE (fields : List (PyStr × JValue)) : Except PyErr JValue :=
  let tt := dictGet fields (pystr "timestamp") .null
  if truthy tt then .ok tt
  else
    match dictGet fields (pystr "snapshot") (.obj []) with
    | .obj sf => .ok (dictGet sf (pystr "timestamp") (.str []))
    | _ => .error .attributeError

/-- The truncation marker appended by `extract.py`. -/
def trMarker : PyStr := pystr "...[truncated]"

/-- The per-message length cap of `extract.py`. -/
def msgCap : Nat := 10000

/-- A Flat Message Entry of the detail pipeline. -/
structure FlatEntry where
  datetime : PyStr
  date : PyStr
  time : PyStr
  project : PyStr
  role : Option PyStr
  message : PyStr
deriving DecidableEq

/-- The truncation and final cleanup applied by `extract.py` lines 104-113
to a record's content string: contents longer than the cap are cut to the
cap and the marker is appended, and the stored message is `content.strip()`
of the result. -/
def mkMessage (content : PyStr) : PyStr :=
  pyStrip (if msgCap < content.length then content.take msgCap ++ trMarker else content)

/-- One iteration of the line loop of `extract_all_conversations` (lines
89-116 of `extract.py`): `ok none` when the line contributes no entry but
the loop continues (blank line, `JSONDecodeError`, missing/unparsable
timestamp, empty content), `ok (some e)` when a Flat Message Entry is
appended, and `error` when an exception escapes the
`except (json.JSONDecodeError, KeyError, ValueError)` handler and aborts the
file. -/
def extractLineStep (pname : PyStr) (l : RawLine) : Except PyErr (Option FlatEntry) :=
  match l with
  | .blank => .ok none
  | .badJson => .ok none
  | .val entry =>
    match entry with
    | .obj fields => do
      let arg ← tsArgE fields
      match parse_timestamp_E arg with
      | none => pure none
      | some ts => do
        let (content, role) ← extract_message_content fields
        if !content.isEmpty && !(pyStrip content).isEmpty then
          pure (some
            { datetime := isoformat ts
              date := strfDate ts
              time := strfTime ts
              project := pname
              role := role
              message := mkMessage content })
        else pure none
    | _ => .error .attributeError

/-- The line loop of `extract_all_conversations` over one file: an escaping
exception is caught by the per-file `except Exception: continue`, so the
entries accumulated so far (they sit in the global `all_entries`) are kept
and the rest of the file is skipped. -/
def extractFileGo (pname : PyStr) (acc : List FlatEntry) : List RawLine → List FlatEntry
  | [] => acc
  | l :: ls =>
    match extractLineStep pname l with
    | .ok none => extractFileGo pname acc ls
    | .ok (some e) => extractFileGo pname (acc ++ [e]) ls
    | .error _ => acc

/-- The project loop body of `extract_all_conversations`: the detail
pipeline applies no age cutoff and uses only the `*.jsonl` glob. -/
def extractProject (acc : List FlatEntry) (p : ProjectDir) : List FlatEntry :=
  if p.isDir && !(pystr ".").isPrefixOf p.name then
    (p.files.filter (fun f => isJsonlName f.name)).foldl
      (fun a f => extractFileGo (get_project_name_E (projPathStr p.name)) a f.lines) acc
  else acc

/-- The `extract_all_conversations` of `extract.py`:
`all_entries.sort(key=lambda x: x['datetime'], reverse=True)` — the sort key
is the ISO timestamp string, compared lexicographically, which never
raises. -/
def extract_all_conversations (tree : List ProjectDir) : List FlatEntry :=
  sortDescLe (fun a b => pyStrLe b.datetime a.datetime) (tree.foldl extractProject [])

theorem mem_insertDescLe (ge : α → α → Bool) (x a : α) :
    ∀ l : List α, a ∈ insertDescLe ge x l ↔ a = x ∨ a ∈ l := by
  intro l
  induction l with
  | nil => simp [insertDescLe]
  | cons y ys ih =>
    by_cases h : ge y x = true
    · simp only [insertDescLe, if_pos h, List.mem_cons, ih]
      tauto
    · simp only [insertDescLe, if_neg h, List.mem_cons]

theorem mem_sortDescLe (ge : α → α → Bool) (a : α) :
    ∀ l : List α, a ∈ sortDescLe ge l ↔ a ∈ l := by
  intro l
  induction l with
  | nil => simp [sortDescLe]
  | cons y ys ih => simp [sortDescLe, mem_insertDescLe, ih]

theorem length_insertDescLe (ge : α → α → Bool) (x : α) :
    ∀ l : List α, (insertDescLe ge x l).length = l.length + 1 := by
  intro l
  induction l with
  | nil => rfl
  | cons y ys ih =>
    by_cases h : ge y x = true
    · simp [insertDescLe, if_pos h, ih]
    · simp [insertDescLe, if_neg h]

theorem length_sortDescLe (ge : α → α → Bool) :
    ∀ l : List α, (sortDescLe ge l).length = l.length := by
  intro l
  induction l with
  | nil => rfl
  | cons y ys ih => simp [sortDescLe, length_insertDescLe, ih]

theorem pairwise_insertDescLe (ge : α → α → Bool)
    (htot : ∀ a b, ge a b = true ∨ ge b a = true)
    (htrans : ∀ a b c, ge a b = true → ge b c = true → ge a c = true)
    (x : α) : ∀ l : List α, l.Pairwise (fun a b => ge a b = true) →
      (insertDescLe ge x l).Pairwise (fun a b => ge a b = true) := by
  intro l
  induction l with
  | nil => simp [insertDescLe]
  | cons y ys ih =>
    intro hp
    rw [List.pairwise_cons] at hp
    by_cases h : ge y x = true
    · rw [insertDescLe, if_pos h, List.pairwise_cons]
      refine ⟨?_, ih hp.2⟩
      intro b hb
      rcases (mem_insertDescLe ge x b ys).mp hb with rfl | hb
      · exact h
      · exact hp.1 b hb
    · rw [insertDescLe, if_neg h, List.pairwise_cons]
      have hxy : ge x y = true := (htot x y).resolve_right (fun hc => h hc)
      refine ⟨?_, List.pairwise_cons.mpr hp⟩
      intro b hb
      rcases List.mem_cons.mp hb with rfl | hb
      · exact hxy
      · exact htrans x y b hxy (hp.1 b hb)

theorem pairwise_sortDescLe (ge : α → α → Bool)
    (htot : ∀ a b, ge a b = true ∨ ge b a = true)
    (htrans : ∀ a b c, ge a b = true → ge b c = true → ge a c = true) :
    ∀ l : List α, (sortDescLe ge l).Pairwise (fun a b => ge a b = true) := by
  intro l
  induction l with
  | nil => simp [sortDescLe]
  | cons y ys ih => exact pairwise_insertDescLe ge htot htrans y _ ih

theorem pyStrLe_total : ∀ s t : PyStr, pyStrLe s t = true ∨ pyStrLe t s = true := by
  intro s
  induction s with
  | nil => intro t; left; rfl
  | cons a as ih =>
    intro t
    cases t with
    | nil => right; rfl
    | cons b bs =>
      rcases Nat.lt_trichotomy a.toNat b.toNat with h | h | h
      · left; simp [pyStrLe, h]
      · have hba : ¬ b.toNat < a.toNat := by omega
        have hab : ¬ a.toNat < b.toNat := by omega
        rcases ih bs with hle | hle
        · left; simp [pyStrLe, hab, hba, hle]
        · right; simp [pyStrLe, hab, hba, hle]
      · right; simp [pyStrLe, h]

theorem pyStrLe_trans : ∀ s t u : PyStr,
    pyStrLe s t = true → pyStrLe t u = true → pyStrLe s u = true := by
  intro s
  induction s with
  | nil => intro t u _ _; rfl
  | cons a as ih =>
    intro t u hst htu
    cases t with
    | nil => simp [pyStrLe] at hst
    | cons b bs =>
      cases u with
      | nil => simp [pyStrLe] at htu
      | cons c cs =>
        simp only [pyStrLe] at hst htu ⊢
        split at hst
        · rename_i hab
          split at htu
          · rename_i hbc
            have : a.toNat < c.toNat := by omega
            simp [this]
          · split at htu
            · exact absurd htu (by simp)
            · rename_i hcb hbc
              have : a.toNat < c.toNat := by omega
              simp [this]
        · split at hst
          · exact absurd hst (by simp)
          · rename_i hab hba
            have hEq : a.toNat = b.toNat := by omega
            split at htu
            · rename_i hbc
              have : a.toNat < c.toNat := by omega
              simp [this]
            · split at htu
              · exact absurd htu (by simp)
              · rename_i hbc hcb
                have h1 : ¬ a.toNat < c.toNat := by omega
                have h2 : ¬ c.toNat < a.toNat := by omega
                simp [h1, h2]
                exact ih bs cs hst htu


theorem pyLStrip_cons_space (l : PyStr) : pyLStrip (' ' :: l) = pyLStrip l := by
  simp [pyLStrip, List.dropWhile_cons, isPySpace]

theorem pyLStrip_cons_not_space (a : Char) (l : PyStr) (ha : isPySpace a = false) :
    pyLStrip (a :: l) = a :: l := by
  simp [pyLStrip, List.dropWhile_cons, ha]

theorem pyLStrip_replicate_append (n : Nat) (c : Char) (hc : isPySpace c = false)
    (m : PyStr) :
    pyLStrip (List.replicate (n + 1) c ++ m) = List.replicate (n + 1) c ++ m := by
  rw [List.replicate_succ, List.cons_append, pyLStrip_cons_not_space c _ hc]

theorem pyRStrip_append_trMarker (xs : PyStr) :
    pyRStrip (xs ++ trMarker) = xs ++ trMarker := by
  have hd : (xs ++ trMarker).reverse.dropWhile isPySpace = (xs ++ trMarker).reverse := by
    rw [List.reverse_append]
    have hm : trMarker.reverse = ']' :: pystr "detacnurt[..." := by decide
    rw [hm, List.cons_append, List.dropWhile_cons]
    simp [show isPySpace ']' = false from rfl]
  rw [pyRStrip, hd, List.reverse_reverse]

theorem pyStrip_cons_marker (a : Char) (rest : PyStr) (ha : isPySpace a = false) :
    pyStrip ((a :: rest) ++ trMarker) = (a :: rest) ++ trMarker := by
  rw [pyStrip, List.cons_append, pyLStrip_cons_not_space a _ ha, ← List.cons_append,
    pyRStrip_append_trMarker]

theorem pyStrip_cons_ne_nil (a : Char) (l : PyStr) (ha : isPySpace a = false) :
    pyStrip (a :: l) ≠ [] := by
  rw [pyStrip, pyLStrip_cons_not_space a l ha]
  intro hcontra
  rw [pyRStrip] at hcontra
  have h1 : (a :: l).reverse.dropWhile isPySpace = [] := by
    have := congrArg List.reverse hcontra
    simpa using this
  rw [List.dropWhile_eq_nil_iff] at h1
  have ha2 := h1 a (by simp)
  rw [ha] at ha2
  exact Bool.false_ne_true ha2


theorem updateFirstTs_first_isSome (d : FileData) (ts : PyDateTime) :
    (updateFirstTs d ts).1.first_timestamp.isSome = true := by
  rw [updateFirstTs]
  rcases hf : d.first_timestamp with _ | firstTs
  · simp
  · rcases hlt : pyLtDT ts firstTs with e | b
    · simp [hlt, hf]
    · rcases b with _ | _ <;> simp [hlt, hf]

theorem updateFirstTs_last (d : FileData) (ts : PyDateTime) :
    (updateFirstTs d ts).1.last_timestamp = d.last_timestamp := by
  rw [updateFirstTs]
  rcases hf : d.first_timestamp with _ | firstTs
  · simp
  · rcases hlt : pyLtDT ts firstTs with e | b
    · simp [hlt]
    · rcases b with _ | _ <;> simp [hlt]

theorem updateFirstTs_count (d : FileData) (ts : PyDateTime) :
    (updateFirstTs d ts).1.message_count = d.message_count := by
  rw [updateFirstTs]
  rcases hf : d.first_timestamp with _ | firstTs
  · simp
  · rcases hlt : pyLtDT ts firstTs with e | b
    · simp [hlt]
    · rcases b with _ | _ <;> simp [hlt]

theorem updateFirstTs_error_first (d : FileData) (ts : PyDateTime) (e : PyErr)
    (h : (updateFirstTs d ts).2 = some e) : d.first_timestamp.isSome = true := by
  rcases hf : d.first_timestamp with _ | firstTs
  · rw [updateFirstTs, hf] at h
    simp at h
  · simp

theorem updateLastTs_last_isSome (d : FileData) (ts : PyDateTime) :
    (updateLastTs d ts).1.last_timestamp.isSome = true := by
  rw [updateLastTs]
  rcases hf : d.last_timestamp with _ | lastTs
  · simp
  · rcases hlt : pyLtDT lastTs ts with e | b
    · simp [hlt, hf]
    · rcases b with _ | _ <;> simp [hlt, hf]

theorem updateLastTs_first (d : FileData) (ts : PyDateTime) :
    (updateLastTs d ts).1.first_timestamp = d.first_timestamp := by
  rw [updateLastTs]
  rcases hf : d.last_timestamp with _ | lastTs
  · simp
  · rcases hlt : pyLtDT lastTs ts with e | b
    · simp [hlt]
    · rcases b with _ | _ <;> simp [hlt]

theorem updateLastTs_count (d : FileData) (ts : PyDateTime) :
    (updateLastTs d ts).1.message_count = d.message_count := by
  rw [updateLastTs]
  rcases hf : d.last_timestamp with _ | lastTs
  · simp
  · rcases hlt : pyLtDT lastTs ts with e | b
    · simp [hlt]
    · rcases b with _ | _ <;> simp [hlt]

theorem analyzeStep_error_tsArg (d : FileData) (fields : List (PyStr × JValue)) (e : PyErr)
    (htsa : tsArgA fields = .error e) :
    analyzeStep d (.val (.obj fields)) = (d, some e) := by
  simp only [analyzeStep, htsa]

theorem analyzeStep_no_ts (d : FileData) (fields : List (PyStr × JValue)) (arg : JValue)
    (htsa : tsArgA fields = .ok arg) (hpa : parse_timestamp_A arg = none) :
    analyzeStep d (.val (.obj fields)) = (d, none) := by
  simp only [analyzeStep, htsa, hpa]

theorem analyzeStep_counted (d : FileData) (fields : List (PyStr × JValue)) (arg : JValue)
    (ts : PyDateTime) (htsa : tsArgA fields = .ok arg)
    (hpa : parse_timestamp_A arg = some ts) :
    analyzeStep d (.val (.obj fields)) =
      (match updateFirstTs (countRecord d fields ts) ts with
       | (d2, some e) => (d2, some e)
       | (d2, none) => updateLastTs d2 ts) := by
  simp only [analyzeStep, htsa, hpa]

/-- Invariant of the `data` accumulator of `analyze_jsonl_file`: the
first/last bounds are present exactly when at least one record has been
counted. -/
def FDInv (d : FileData) : Prop :=
  (d.first_timestamp.isSome = true ↔ d.message_count ≠ 0) ∧
  (d.last_timestamp.isSome = true ↔ d.message_count ≠ 0)

theorem analyzeStep_inv (d : FileData) (l : RawLine) (h : FDInv d) :
    FDInv (analyzeStep d l).1 := by
  rcases l with _ | _ | entry
  · exact h
  · exact h
  rcases entry with _ | b | n | s | elems | fields
  · exact h
  · exact h
  · exact h
  · exact h
  · exact h
  rcases htsa : tsArgA fields with e | arg
  · rw [analyzeStep_error_tsArg d fields e htsa]; exact h
  rcases hpa : parse_timestamp_A arg with _ | ts
  · rw [analyzeStep_no_ts d fields arg htsa hpa]; exact h
  rw [analyzeStep_counted d fields arg ts htsa hpa]
  have hc1 : (countRecord d fields ts).message_count ≠ 0 := by simp [countRecord]
  rcases hu : updateFirstTs (countRecord d fields ts) ts with ⟨d2, oe⟩
  have hfst2 : d2.first_timestamp.isSome = true := by
    have h2 := updateFirstTs_first_isSome (countRecord d fields ts) ts
    rw [hu] at h2; exact h2
  have hcnt2 : d2.message_count ≠ 0 := by
    have h2 := updateFirstTs_count (countRecord d fields ts) ts
    rw [hu] at h2
    have h3 : d2.message_count = (countRecord d fields ts).message_count := h2
    rw [h3]
    exact hc1
  have hlst2 : d2.last_timestamp = (countRecord d fields ts).last_timestamp := by
    have h2 := updateFirstTs_last (countRecord d fields ts) ts
    rw [hu] at h2; exact h2
  rcases oe with _ | e
  · dsimp only
    have h3 := updateLastTs_last_isSome d2 ts
    have h4 := updateLastTs_first d2 ts
    have h5 := updateLastTs_count d2 ts
    constructor
    · rw [h4, hfst2, h5]
      simp [hcnt2]
    · rw [h3, h5]
      simp [hcnt2]
  · dsimp only
    have herr : (countRecord d fields ts).first_timestamp.isSome = true := by
      refine updateFirstTs_error_first (countRecord d fields ts) ts e ?_
      rw [hu]
    have hdf : d.first_timestamp.isSome = true := herr
    have hdc : d.message_count ≠ 0 := h.1.mp hdf
    have hdl : d.last_timestamp.isSome = true := h.2.mpr hdc
    have hl2 : d2.last_timestamp.isSome = true := by
      rw [hlst2]; exact hdl
    exact ⟨by rw [hfst2]; simp [hcnt2], by rw [hl2]; simp [hcnt2]⟩

theorem analyzeGo_inv (lines : List RawLine) :
    ∀ d : FileData, FDInv d → FDInv (analyzeGo d lines) := by
  induction lines with
  | nil => intro d h; exact h
  | cons l ls ih =>
    intro d h
    rw [analyzeGo]
    rcases hs : analyzeStep d l with ⟨d1, oe⟩
    have h1 : FDInv d1 := by
      have h2 := analyzeStep_inv d l h
      rw [hs] at h2; exact h2
    rcases oe with _ | e
    · exact ih d1 h1
    · exact h1

/-- A positive message count of `analyze_jsonl_file` guarantees both
first/last timestamps are present. -/
theorem analyze_jsonl_file_bounds (lines : List RawLine)
    (h : 0 < (analyze_jsonl_file lines).message_count) :
    (analyze_jsonl_file lines).first_timestamp.isSome = true ∧
    (analyze_jsonl_file lines).last_timestamp.isSome = true := by
  have hinv : FDInv (analyze_jsonl_file lines) := by
    refine analyzeGo_inv lines analyzeInit ?_
    exact ⟨by simp [analyzeInit], by simp [analyzeInit]⟩
  have hne : (analyze_jsonl_file lines).message_count ≠ 0 := Nat.pos_iff_ne_zero.mp h
  exact ⟨hinv.1.mpr hne, hinv.2.mpr hne⟩

theorem updateEarliest_recent (acc : ScanAcc) (ft : Option PyDateTime) (acc2 : ScanAcc)
    (h : updateEarliest acc ft = .ok acc2) :
    acc2.recent = acc.recent ∧ acc2.total = acc.total ∧ acc2.latest = acc.latest := by
  rcases ft with _ | ft
  · rw [updateEarliest] at h
    cases h
    exact ⟨rfl, rfl, rfl⟩
  · rw [updateEarliest] at h
    rcases he : acc.earliest with _ | e
    · simp only [he] at h
      cases h
      exact ⟨rfl, rfl, rfl⟩
    · simp only [he] at h
      rcases hlt : pyLtDT ft e with er | b
      · simp only [hlt] at h
        cases h
      · simp only [hlt] at h
        rcases b with _ | _
        · simp only [Bool.false_eq_true, if_false] at h
          cases h
          exact ⟨rfl, rfl, rfl⟩
        · simp only [if_true] at h
          cases h
          exact ⟨rfl, rfl, rfl⟩

theorem updateEarliest_isSome (acc : ScanAcc) (ft : PyDateTime) (acc2 : ScanAcc)
    (h : updateEarliest acc (some ft) = .ok acc2) :
    acc2.earliest.isSome = true := by
  rw [updateEarliest] at h
  rcases he : acc.earliest with _ | e
  · simp only [he] at h
    cases h
    simp
  · simp only [he] at h
    rcases hlt : pyLtDT ft e with er | b
    · simp only [hlt] at h
      cases h
    · simp only [hlt] at h
      rcases b with _ | _
      · simp only [Bool.false_eq_true, if_false] at h
        cases h
        simp [he]
      · simp only [if_true] at h
        cases h
        simp

theorem updateLatest_recent (acc : ScanAcc) (lt : Option PyDateTime) (acc2 : ScanAcc)
    (h : updateLatest acc lt = .ok acc2) :
    acc2.recent = acc.recent ∧ acc2.total = acc.total ∧ acc2.earliest = acc.earliest := by
  rcases lt with _ | lt
  · rw [updateLatest] at h
    cases h
    exact ⟨rfl, rfl, rfl⟩
  · rw [updateLatest] at h
    rcases he : acc.latest with _ | l
    · simp only [he] at h
      cases h
      exact ⟨rfl, rfl, rfl⟩
    · simp only [he] at h
      rcases hlt : pyLtDT l lt with er | b
      · simp only [hlt] at h
        cases h
      · simp only [hlt] at h
        rcases b with _ | _
        · simp only [Bool.false_eq_true, if_false] at h
          cases h
          exact ⟨rfl, rfl, rfl⟩
        · simp only [if_true] at h
          cases h
          exact ⟨rfl, rfl, rfl⟩

theorem updateLatest_isSome (acc : ScanAcc) (lt : PyDateTime) (acc2 : ScanAcc)
    (h : updateLatest acc (some lt) = .ok acc2) :
    acc2.latest.isSome = true := by
  rw [updateLatest] at h
  rcases he : acc.latest with _ | l
  · simp only [he] at h
    cases h
    simp
  · simp only [he] at h
    rcases hlt : pyLtDT l lt with er | b
    · simp only [hlt] at h
      cases h
    · simp only [hlt] at h
      rcases b with _ | _
      · simp only [Bool.false_eq_true, if_false] at h
        cases h
        simp [he]
      · simp only [if_true] at h
        cases h
        simp

/-- Invariant of the per-project accumulators of the file loop in
`scan_all_projects`: both running bounds are present exactly when at least
one file summary has been retained. -/
def SAInv (acc : ScanAcc) : Prop :=
  (acc.earliest.isSome = true ↔ acc.recent ≠ []) ∧
  (acc.latest.isSome = true ↔ acc.recent ≠ [])

theorem scanFileStep_props (now : Int) (acc : ScanAcc) (f : FileEntry) (acc' : ScanAcc)
    (h : scanFileStep now acc f = .ok acc') (hinv : SAInv acc) :
    SAInv acc' ∧
      acc'.recent.length =
        acc.recent.length + (if retainedPositive now f then 1 else 0) := by
  rw [scanFileStep] at h
  by_cases hage : getFileAgeDays now f.mtime ≤ 7
  · rw [if_pos hage] at h
    by_cases hcnt : 0 < (analyze_jsonl_file f.lines).message_count
    · rw [if_pos hcnt] at h
      have hrp : retainedPositive now f = true := by
        simp [retainedPositive, hage, hcnt]
      obtain ⟨hfst, hlst⟩ := analyze_jsonl_file_bounds f.lines hcnt
      rcases hft : (analyze_jsonl_file f.lines).first_timestamp with _ | ft
      · rw [hft] at hfst
        simp at hfst
      rcases hlt : (analyze_jsonl_file f.lines).last_timestamp with _ | lt
      · rw [hlt] at hlst
        simp at hlst
      rw [hft, hlt] at h
      simp only [bind, Except.bind] at h
      rcases hue : updateEarliest (appendSummary now acc f) (some ft) with er | acc2
      · rw [hue] at h
        cases h
      rw [hue] at h
      have hrec2 := updateEarliest_recent _ _ _ hue
      have hes2 := updateEarliest_isSome _ _ _ hue
      have hrec3 := updateLatest_recent _ _ _ h
      have hls3 := updateLatest_isSome _ _ _ h
      have hrecEq : acc'.recent = acc.recent ++
          [⟨f.name, getFileAgeDays now f.mtime, f.mtime,
            (analyze_jsonl_file f.lines).message_count,
            (analyze_jsonl_file f.lines).first_timestamp,
            (analyze_jsonl_file f.lines).last_timestamp⟩] := by
        rw [hrec3.1, hrec2.1]
        rfl
      have hne : acc'.recent ≠ [] := by
        rw [hrecEq]
        simp
      refine ⟨⟨?_, ?_⟩, ?_⟩
      · rw [hrec3.2.2, hes2]
        simp [hne]
      · rw [hls3]
        simp [hne]
      · rw [hrecEq, hrp]
        simp
    · rw [if_neg hcnt] at h
      cases h
      have hrp : retainedPositive now f = false := by
        simp [retainedPositive, hcnt]
      exact ⟨hinv, by rw [hrp]; simp⟩
  · rw [if_neg hage] at h
    cases h
    have hrp : retainedPositive now f = false := by
      simp [retainedPositive, hage]
    exact ⟨hinv, by rw [hrp]; simp⟩

theorem scanFilesGo_props (now : Int) (fs : List FileEntry) :
    ∀ (acc acc' : ScanAcc), scanFilesGo now acc fs = .ok acc' → SAInv acc →
      SAInv acc' ∧
        acc'.recent.length =
          acc.recent.length + (fs.filter (retainedPositive now)).length := by
  induction fs with
  | nil =>
    intro acc acc' h hinv
    rw [scanFilesGo] at h
    cases h
    exact ⟨hinv, by simp⟩
  | cons f fs ih =>
    intro acc acc' h hinv
    rw [scanFilesGo] at h
    simp only [bind, Except.bind] at h
    rcases hs : scanFileStep now acc f with er | acc1
    · rw [hs] at h
      cases h
    rw [hs] at h
    obtain ⟨hinv1, hlen1⟩ := scanFileStep_props now acc f acc1 hs hinv
    obtain ⟨hinv2, hlen2⟩ := ih acc1 acc' h hinv1
    refine ⟨hinv2, ?_⟩
    rw [hlen2, hlen1, List.filter_cons]
    rcases hrp : retainedPositive now f
    · simp [hrp]
    · simp [hrp]
      omega

/-- The concatenated glob results processed for one project directory. -/
def projAllFiles (p : ProjectDir) : List FileEntry :=
  p.files.filter (fun f => isJsonlName f.name)
    ++ p.files.filter (fun f => isAgentJsonlName f.name)

theorem scanProject_ok_some (now : Int) (p : ProjectDir) (proj : Project)
    (h : scanProject now p = .ok (some proj)) :
    proj.earliest_activity.isSome = true ∧ proj.latest_activity.isSome = true ∧
      proj.files_count = ((projAllFiles p).filter (retainedPositive now)).length ∧
      proj.files.length = proj.files_count := by
  rw [scanProject] at h
  simp only [bind, Except.bind] at h
  rcases hacc : scanFilesGo now ⟨[], 0, none, none⟩
      (p.files.filter (fun f => isJsonlName f.name)
        ++ p.files.filter (fun f => isAgentJsonlName f.name)) with er | acc
  · simp only [hacc] at h
    cases h
  simp only [hacc] at h
  have hinit : SAInv ⟨[], 0, none, none⟩ := ⟨by simp, by simp⟩
  obtain ⟨hinv, hlen⟩ := scanFilesGo_props now _ _ _ hacc hinit
  by_cases hemp : acc.recent.isEmpty = true
  · rw [if_pos hemp] at h
    cases h
  · rw [if_neg hemp] at h
    cases h
    have hne : acc.recent ≠ [] := by
      intro hc
      rw [hc] at hemp
      exact hemp rfl
    refine ⟨hinv.1.mpr hne, hinv.2.mpr hne, ?_, ?_⟩
    · simp only [projAllFiles]
      simpa using hlen
    · exact length_sortDescLe _ _

theorem mem_scanProjectsGo (now : Int) (tree : List ProjectDir) :
    ∀ (pd : List Project), scanProjectsGo now tree = .ok pd →
      ∀ proj ∈ pd, ∃ p, scanProject now p = .ok (some proj) := by
  induction tree with
  | nil =>
    intro pd h proj hmem
    rw [scanProjectsGo] at h
    cases h
    cases hmem
  | cons p ps ih =>
    intro pd h proj hmem
    rw [scanProjectsGo] at h
    by_cases hdir : (p.isDir && !(pystr ".").isPrefixOf p.name) = true
    · rw [if_pos hdir] at h
      simp only [bind, Except.bind] at h
      rcases hr : scanProject now p with er | r
      · rw [hr] at h
        cases h
      rw [hr] at h
      rcases hrest : scanProjectsGo now ps with er | rest
      · rw [hrest] at h
        cases h
      rw [hrest] at h
      cases h
      rcases r with _ | proj1
      · exact ih rest hrest proj hmem
      · rcases List.mem_cons.mp hmem with rfl | hmem2
        · exact ⟨p, hr⟩
        · exact ih rest hrest proj hmem2
    · rw [if_neg hdir] at h
      exact ih pd h proj hmem

/-- Every project of the summary pipeline's output has both activity bounds
present, with the sort key equal to the latest instant itself. -/
theorem scan_all_projects_bounds (now : Int) (tree : List ProjectDir)
    (pd : List Project) (h : scan_all_projects now tree = .ok pd) :
    ∀ proj ∈ pd, ∃ e l, proj.earliest_activity = some e ∧
      proj.latest_activity = some l ∧ proj.latest_activity.getD dtMin = l := by
  rw [scan_all_projects] at h
  simp only [bind, Except.bind] at h
  rcases hpd0 : scanProjectsGo now tree with er | pd0
  · simp only [hpd0] at h
    cases h
  simp only [hpd0] at h
  rw [pySortDescDT] at h
  by_cases hu : uniformAware (pd0.map fun p => p.latest_activity.getD dtMin) = true
  · rw [if_pos hu] at h
    cases h
    intro proj hmem
    have hmem0 : proj ∈ pd0 := (mem_sortDescLe _ _ _).mp hmem
    obtain ⟨p, hp⟩ := mem_scanProjectsGo now tree pd0 hpd0 proj hmem0
    obtain ⟨he, hl, _, _⟩ := scanProject_ok_some now p proj hp
    rcases hee : proj.earliest_activity with _ | e
    · rw [hee] at he
      simp at he
    rcases hll : proj.latest_activity with _ | l
    · rw [hll] at hl
      simp at hl
    exact ⟨e, l, rfl, rfl, rfl⟩
  · rw [if_neg hu] at h
    cases h

theorem extractLineStep_no_ts (pname : PyStr) (fields : List (PyStr × JValue)) (b : JValue)
    (hE : tsArgE fields = .ok b) (hpb : parse_timestamp_E b = none) :
    extractLineStep pname (.val (.obj fields)) = .ok none := by
  rw [extractLineStep]
  simp only [bind, Except.bind, hE, hpb]
  rfl

theorem analyzeGo_skip_middle (fields : List (PyStr × JValue)) (arg : JValue)
    (htsa : tsArgA fields = .ok arg) (hpa : parse_timestamp_A arg = none) :
    ∀ (pre : List RawLine) (d : FileData) (post : List RawLine),
      analyzeGo d (pre ++ .val (.obj fields) :: post) = analyzeGo d (pre ++ post) := by
  intro pre
  induction pre with
  | nil =>
    intro d post
    rw [List.nil_append, List.nil_append, analyzeGo,
      analyzeStep_no_ts d fields arg htsa hpa]
  | cons l ls ih =>
    intro d post
    rw [List.cons_append, List.cons_append, analyzeGo]
    conv_rhs => rw [analyzeGo]
    rcases hs : analyzeStep d l with ⟨d1, oe⟩
    rcases oe with _ | e
    · exact ih d1 post
    · rfl

theorem extractFileGo_skip_middle (pname : PyStr) (fields : List (PyStr × JValue)) (b : JValue)
    (hE : tsArgE fields = .ok b) (hpb : parse_timestamp_E b = none) :
    ∀ (pre : List RawLine) (acc : List FlatEntry) (post : List RawLine),
      extractFileGo pname acc (pre ++ .val (.obj fields) :: post) =
        extractFileGo pname acc (pre ++ post) := by
  intro pre
  induction pre with
  | nil =>
    intro acc post
    rw [List.nil_append, List.nil_append, extractFileGo,
      extractLineStep_no_ts pname fields b hE hpb]
  | cons l ls ih =>
    intro acc post
    rw [List.cons_append, List.cons_append, extractFileGo]
    conv_rhs => rw [extractFileGo]
    rcases hs : extractLineStep pname l with er | oe
    · rfl
    · rcases oe with _ | e
      · exact ih acc post
      · exact ih (acc ++ [e]) post

theorem mkTimelineEntries_length_le (pname : PyStr) (fs : FileSummary) :
    (mkTimelineEntries pname fs).length ≤ 2 := by
  rw [mkTimelineEntries]
  rcases fs.first_ts with _ | t1 <;> rcases fs.last_ts with _ | t2 <;> simp

theorem listConcatMap_length_le (f : α → List β) (k : Nat)
    (hf : ∀ a, (f a).length ≤ k) :
    ∀ l : List α, (listConcatMap f l).length ≤ k * l.length := by
  intro l
  induction l with
  | nil => simp [listConcatMap]
  | cons x xs ih =>
    rw [listConcatMap, List.length_append]
    have := hf x
    calc (f x).length + (listConcatMap f xs).length
        ≤ k + k * xs.length := Nat.add_le_add (hf x) ih
      _ = k * (x :: xs).length := by
          rw [List.length_cons]
          ring

theorem filter_sublist_of_imp (p q : α → Bool) (himp : ∀ a, p a = true → q a = true) :
    ∀ l : List α, List.Sublist (l.filter p) (l.filter q) := by
  intro l
  induction l with
  | nil => simp
  | cons x xs ih =>
    rw [List.filter_cons, List.filter_cons]
    by_cases hp : p x = true
    · rw [if_pos hp, if_pos (himp x hp)]
      exact List.Sublist.cons₂ x ih
    · rw [if_neg hp]
      by_cases hq : q x = true
      · rw [if_pos hq]
        exact List.Sublist.cons x ih
      · rw [if_neg hq]
        exact ih

theorem agent_implies_jsonl (name : PyStr) (h : isAgentJsonlName name = true) :
    isJsonlName name = true := by
  rw [isAgentJsonlName] at h
  rw [isJsonlName]
  have h1 : (pystr "agent-").isPrefixOf name = true := by
    cases hand : (pystr "agent-").isPrefixOf name
    · rw [hand] at h
      simp at h
    · rfl
  have h2 : (pystr ".jsonl").isSuffixOf name = true := by
    cases hand : (pystr ".jsonl").isSuffixOf name
    · rw [hand] at h
      simp at h
    · rfl
  rw [h2]
  have h3 : (pystr ".").isPrefixOf name = false := by
    rcases name with _ | ⟨c, cs⟩
    · simp [pystr] at h1
    · have hc : c = 'a' := by
        simp only [pystr] at h1
        rw [show ("agent-".toList) = 'a' :: "gent-".toList from rfl] at h1
        rw [List.isPrefixOf] at h1
        rcases Bool.and_eq_true_iff.mp h1 with ⟨hceq, _⟩
        exact (beq_iff_eq.mp hceq).symm
      subst hc
      rw [show (pystr ".") = ['.'] from rfl, List.isPrefixOf]
      simp
  rw [h3]
  rfl

/-- The number of retained file summaries of a project is at most twice the
number of distinct retained files, because `all_files` lists every file at
most twice (once per glob). -/
theorem projAllFiles_retained_le (now : Int) (p : ProjectDir) :
    ((projAllFiles p).filter (retainedPositive now)).length ≤
      2 * ((p.files.filter (fun f => isJsonlName f.name)).filter
            (retainedPositive now)).length := by
  rw [projAllFiles, List.filter_append, List.length_append]
  have hsub : List.Sublist (p.files.filter fun f => isAgentJsonlName f.name)
      (p.files.filter fun f => isJsonlName f.name) :=
    filter_sublist_of_imp _ _ (fun f hf => agent_implies_jsonl f.name hf) p.files
  have hsub2 := hsub.filter (retainedPositive now)
  have hlen := hsub2.length_le
  omega

/-- A record carrying only a top-level `timestamp` of 10:00. -/
def recTsA : JValue := .obj [(pystr "timestamp", .str (pystr "2024-01-01T10:00:00"))]

/-- A record carrying only a top-level `timestamp` of 12:00. -/
def recTsB : JValue := .obj [(pystr "timestamp", .str (pystr "2024-01-01T12:00:00"))]

/-- The instant 2024-01-01 10:00:00, zone-naive. -/
def dtJan1at10 : PyDateTime := ⟨2024, 1, 1, 10, 0, 0, 0, none⟩

/-- The instant 2024-01-01 12:00:00, zone-naive. -/
def dtJan1at12 : PyDateTime := ⟨2024, 1, 1, 12, 0, 0, 0, none⟩

/-- A user-turn record with the given content and a fixed valid top-level
timestamp. -/
def mkUserRec (content : PyStr) : JValue :=
  .obj [(pystr "type", .str (pystr "user")),
        (pystr "message", .obj [(pystr "content", .str content)]),
        (pystr "timestamp", .str (pystr "2024-01-01T10:00:00"))]

/-- A user-turn record with the given timestamp string and content. -/
def mkChatRec (ts content : String) : JValue :=
  .obj [(pystr "type", .str (pystr "user")),
        (pystr "message", .obj [(pystr "content", .str (pystr content))]),
        (pystr "timestamp", .str (pystr ts))]

/-- C1: for the project directory `-Users-larry-demo-project` (full path:
`projPathStr` applied to that name), both
`get_project_name` implementations return the raw directory name through the
`Path(path).name` fallback, not the humanized label `Demo Project` that the
spec's example demands: no `/`-separated segment of the path equals
`-Users-larry`, so the humanizing branch is dead code for every directory the
pipelines enumerate.  The final conjunct shows the humanizing transform
itself would produce exactly the spec's label, evidencing that the fallback,
not the label, is the accident. -/
theorem c1_project_name_eval :
    get_project_name_A (projPathStr (pystr "-Users-larry-demo-project")) =
        pystr "-Users-larry-demo-project" ∧
    get_project_name_E (projPathStr (pystr "-Users-larry-demo-project")) =
        pystr "-Users-larry-demo-project" ∧
    pystr "-Users-larry-demo-project" ≠ pystr "Demo Project" ∧
    pyTitle (pyReplace (pystr "demo-project") (pystr "-") (pystr " ")) =
        pystr "Demo Project" := by
  exact ⟨rfl, rfl, by decide, rfl⟩

/-- C2: a line that decodes to a non-dict JSON value (here the valid JSON
line `5`) raises `AttributeError` at the first `entry.get`, which neither
pipeline's per-line handler catches. In `analyze.py` the file-level
`except Exception: pass` then discards the rest of the file (the 12:00
record is lost and the count stays 1 instead of 2); in `extract.py` the
per-file `except Exception: continue` does the same.  Lines that fail JSON
decoding itself (`badJson`) are, by contrast, skipped correctly. -/
theorem c2_bad_line_aborts_file :
    (analyze_jsonl_file [.val recTsA, .val (.int 5), .val recTsB]).message_count = 1 ∧
    (analyze_jsonl_file [.val recTsA, .val (.int 5), .val recTsB]).last_timestamp =
        some dtJan1at10 ∧
    (analyze_jsonl_file [.val recTsA, .val recTsB]).message_count = 2 ∧
    (analyze_jsonl_file [.val recTsA, .badJson, .val recTsB]).message_count = 2 ∧
    (extractFileGo (pystr "Demo") []
      [.val (mkChatRec "2024-01-01T10:00:00" "hello"), .val (.int 5),
       .val (mkChatRec "2024-01-01T12:00:00" "world")]).length = 1 ∧
    (extractFileGo (pystr "Demo") []
      [.val (mkChatRec "2024-01-01T10:00:00" "hello"), .badJson,
       .val (mkChatRec "2024-01-01T12:00:00" "world")]).length = 2 := by
  exact ⟨rfl, rfl, rfl, rfl, rfl, rfl⟩

theorem extractLineStep_user_char (pname : PyStr) (a : Char) (rest : PyStr) :
    extractLineStep pname (.val (mkUserRec (a :: rest))) =
      if !(pyStrip (a :: rest)).isEmpty then
        .ok (some ⟨pystr "2024-01-01T10:00:00", pystr "2024-01-01", pystr "10:00",
          pname, some (pystr "user"), mkMessage (a :: rest)⟩)
      else .ok none := rfl

theorem mkMessage_long_nonspace (a : Char) (rest : PyStr) (ha : isPySpace a = false)
    (hlen : msgCap < (a :: rest).length) :
    mkMessage (a :: rest) = (a :: rest).take msgCap ++ trMarker := by
  rw [mkMessage, if_pos hlen]
  have h1 : (a :: rest).take msgCap = a :: rest.take 9999 := by
    rw [show msgCap = 9999 + 1 from rfl, List.take_succ_cons]
  rw [h1]
  exact pyStrip_cons_marker a _ ha

/-- C3 (amended): for a user record whose extracted text is longer than the
cap of 10000 characters and does not begin with a whitespace character, the
Flat Message Entry's message equals the first 10000 characters plus the
marker `...[truncated]`, with total length 10000 + 14 = 10014.  (The code
applies `content.strip()` after truncating, so the claim's universal form
fails exactly when the text begins with whitespace: the leading whitespace of
the first 10000 characters is removed after the marker is appended; see the
counterexample.) -/
theorem c3_truncation (pname : PyStr) (c : PyStr) (hlen : msgCap < c.length)
    (hhead : ∀ x, c.head? = some x → isPySpace x = false) :
    ∃ e : FlatEntry, extractLineStep pname (.val (mkUserRec c)) = .ok (some e) ∧
      e.message = c.take msgCap ++ trMarker ∧
      e.message.length = msgCap + trMarker.length ∧
      msgCap + trMarker.length = 10014 := by
  rcases c with _ | ⟨a, rest⟩
  · rw [List.length_nil] at hlen
    exact absurd hlen (by simp [msgCap])
  have ha : isPySpace a = false := hhead a rfl
  have hne : (pyStrip (a :: rest)).isEmpty = false := by
    rcases hh : pyStrip (a :: rest) with _ | ⟨x, xs⟩
    · exact absurd hh (pyStrip_cons_ne_nil a rest ha)
    · rfl
  refine ⟨⟨pystr "2024-01-01T10:00:00", pystr "2024-01-01", pystr "10:00",
    pname, some (pystr "user"), mkMessage (a :: rest)⟩, ?_, ?_, ?_, rfl⟩
  · rw [extractLineStep_user_char pname a rest, hne]
    rfl
  · exact mkMessage_long_nonspace a rest ha hlen
  · rw [mkMessage_long_nonspace a rest ha hlen, List.length_append, List.length_take,
      Nat.min_eq_left (Nat.le_of_lt hlen)]

/-- Witness for C3 at a concrete 10001-character text. -/
theorem c3_truncation_witness :
    ∃ e : FlatEntry,
      extractLineStep (pystr "Demo") (.val (mkUserRec (List.replicate 10001 'a'))) =
        .ok (some e) ∧
      e.message = (List.replicate 10001 'a').take msgCap ++ trMarker ∧
      e.message.length = msgCap + trMarker.length ∧
      msgCap + trMarker.length = 10014 := by
  refine c3_truncation (pystr "Demo") (List.replicate 10001 'a') ?_ ?_
  · rw [List.length_replicate]
    norm_num [msgCap]
  · intro x hx
    rw [show (10001 : Nat) = 10000 + 1 from rfl, List.replicate_succ] at hx
    simp only [List.head?_cons, Option.some.injEq] at hx
    rw [← hx]
    rfl

/-- The concrete text refuting C3 as stated: a space followed by 10000
letters. -/
def c3content : PyStr := ' ' :: List.replicate 10000 'a'

set_option maxRecDepth 100000 in
/-- C3 (counterexample): on a record whose text is one space followed by
10000 letters (length 10001 > cap), the stored message has length 10013, not
10000 + 14 = 10014, and differs from `first 10000 characters + marker`: the
post-truncation `strip()` removed the leading space. -/
theorem c3_counterexample :
    ∃ e : FlatEntry,
      extractLineStep (pystr "Demo") (.val (mkUserRec c3content)) = .ok (some e) ∧
      msgCap < c3content.length ∧
      e.message = List.replicate 9999 'a' ++ trMarker ∧
      e.message.length = 10013 ∧
      ¬ (e.message = c3content.take msgCap ++ trMarker ∧
         e.message.length = msgCap + trMarker.length) := by
  have hlen : msgCap < c3content.length := by
    rw [c3content, List.length_cons, List.length_replicate]
    norm_num [msgCap]
  have hmsg : mkMessage c3content = List.replicate 9999 'a' ++ trMarker := by
    rw [mkMessage, if_pos hlen, c3content]
    have h1 : (' ' :: List.replicate 10000 'a').take msgCap =
        ' ' :: List.replicate 9999 'a' := by
      rw [show msgCap = 9999 + 1 from rfl, List.take_succ_cons, List.take_replicate]
      norm_num
    rw [h1, pyStrip, List.cons_append, pyLStrip_cons_space]
    have h2 : pyLStrip (List.replicate 9999 'a' ++ trMarker) =
        List.replicate 9999 'a' ++ trMarker := by
      rw [show (9999 : Nat) = 9998 + 1 from rfl]
      exact pyLStrip_replicate_append 9998 'a' rfl trMarker
    rw [h2, pyRStrip_append_trMarker]
  have hne : (pyStrip c3content).isEmpty = false := by
    rw [c3content, pyStrip, pyLStrip_cons_space]
    have h2 : pyLStrip (List.replicate 10000 'a') = List.replicate 10000 'a' := by
      have h3 := pyLStrip_replicate_append 9999 'a' rfl []
      rw [List.append_nil] at h3
      rw [show (10000 : Nat) = 9999 + 1 from rfl, h3]
    rw [h2]
    have h4 : pyRStrip (List.replicate 10000 'a') ≠ [] := by
      have h5 : pyStrip ('a' :: List.replicate 9999 'a') ≠ [] :=
        pyStrip_cons_ne_nil 'a' (List.replicate 9999 'a') rfl
      rw [pyStrip, pyLStrip_cons_not_space 'a' _ rfl] at h5
      rw [show (10000 : Nat) = 9999 + 1 from rfl, List.replicate_succ]
      exact h5
    rcases hh : pyRStrip (List.replicate 10000 'a') with _ | ⟨x, xs⟩
    · exact absurd hh h4
    · rfl
  have hstep : extractLineStep (pystr "Demo") (.val (mkUserRec c3content)) =
      .ok (some ⟨pystr "2024-01-01T10:00:00", pystr "2024-01-01", pystr "10:00",
        pystr "Demo", some (pystr "user"), mkMessage c3content⟩) := by
    rw [show c3content = ' ' :: List.replicate 10000 'a' from rfl] at hne ⊢
    rw [extractLineStep_user_char, hne]
    rfl
  rw [hmsg] at hstep
  have hmlen : (List.replicate 9999 'a' ++ trMarker).length = 10013 := by
    rw [List.length_append, List.length_replicate]
    rfl
  refine ⟨⟨pystr "2024-01-01T10:00:00", pystr "2024-01-01", pystr "10:00",
    pystr "Demo", some (pystr "user"), List.replicate 9999 'a' ++ trMarker⟩,
    hstep, hlen, rfl, hmlen, ?_⟩
  intro hcon
  have hl2 := hcon.2
  rw [hmlen] at hl2
  rw [show msgCap + trMarker.length = 10014 from rfl] at hl2
  exact absurd hl2 (by norm_num)

/-- A record carrying both a nested snapshot timestamp and a top-level
timestamp. -/
def mkTsRec (snapTs topTs : JValue) : List (PyStr × JValue) :=
  [(pystr "snapshot", .obj [(pystr "timestamp", snapTs)]), (pystr "timestamp", topTs)]

/-- C4 (amended): the summary pipeline (`analyze.py`) prefers the nested
snapshot timestamp and falls back to the top-level field, but the detail
pipeline (`extract.py`) does the opposite: it prefers the top-level field
and falls back to the snapshot value only when the top-level one is absent
or falsy. -/
theorem c4_timestamp_priority (sv tv : JValue) (hs : truthy sv = true)
    (ht : truthy tv = true) :
    tsArgA (mkTsRec sv tv) = .ok sv ∧ tsArgE (mkTsRec sv tv) = .ok tv ∧
    tsArgA (mkTsRec .null tv) = .ok tv ∧ tsArgE (mkTsRec sv .null) = .ok sv := by
  refine ⟨?_, ?_, rfl, rfl⟩
  · have h1 : tsArgA (mkTsRec sv tv) = if truthy sv then .ok sv else .ok tv := rfl
    rw [h1, if_pos hs]
  · have h1 : tsArgE (mkTsRec sv tv) = if truthy tv then .ok tv else .ok sv := rfl
    rw [h1, if_pos ht]

/-- Witness for C4 at concrete truthy timestamp values. -/
theorem c4_timestamp_priority_witness :
    tsArgA (mkTsRec (.str (pystr "2024-01-02T00:00:00"))
        (.str (pystr "2024-01-03T00:00:00"))) =
      .ok (.str (pystr "2024-01-02T00:00:00")) ∧
    tsArgE (mkTsRec (.str (pystr "2024-01-02T00:00:00"))
        (.str (pystr "2024-01-03T00:00:00"))) =
      .ok (.str (pystr "2024-01-03T00:00:00")) ∧
    tsArgA (mkTsRec .null (.str (pystr "2024-01-03T00:00:00"))) =
      .ok (.str (pystr "2024-01-03T00:00:00")) ∧
    tsArgE (mkTsRec (.str (pystr "2024-01-02T00:00:00")) .null) =
      .ok (.str (pystr "2024-01-02T00:00:00")) :=
  c4_timestamp_priority (.str (pystr "2024-01-02T00:00:00"))
    (.str (pystr "2024-01-03T00:00:00")) rfl rfl

/-- A record with both timestamp fields present and different, plus user
content, as decoded from one log line. -/
def rec4both : JValue :=
  .obj [(pystr "type", .str (pystr "user")),
        (pystr "message", .obj [(pystr "content", .str (pystr "x"))]),
        (pystr "timestamp", .str (pystr "2024-01-03T00:00:00")),
        (pystr "snapshot", .obj [(pystr "timestamp", .str (pystr "2024-01-02T00:00:00"))])]

/-- C4 (counterexample): on a record carrying both fields, the summary scan
uses the snapshot instant (Jan 2) while the detail pipeline stores the
top-level instant (Jan 3) — refuting the claim that both pipelines prefer
the snapshot value. -/
theorem c4_counterexample :
    (analyzeStep analyzeInit (.val rec4both)).1.first_timestamp =
        some ⟨2024, 1, 2, 0, 0, 0, 0, none⟩ ∧
    extractLineStep (pystr "Demo") (.val rec4both) =
      .ok (some ⟨pystr "2024-01-03T00:00:00", pystr "2024-01-03", pystr "00:00",
        pystr "Demo", some (pystr "user"), pystr "x"⟩) ∧
    (pystr "2024-01-03T00:00:00" : PyStr) ≠ isoformat ⟨2024, 1, 2, 0, 0, 0, 0, none⟩ := by
  exact ⟨rfl, rfl, by decide⟩

/-- The directory tree refuting the C5 sorting claim: one project with a
single file holding two aware records with different UTC offsets. -/
def tree5 : List ProjectDir :=
  [⟨pystr "p", true, [⟨pystr "a.jsonl", 0,
    [.val (mkChatRec "2024-01-01T10:00:00+03:00" "hello"),
     .val (mkChatRec "2024-01-01T09:00:00+01:00" "world")]⟩]⟩]

/-- The first flat entry produced for `tree5` (07:00 UTC). -/
def c5entry1 : FlatEntry :=
  ⟨pystr "2024-01-01T10:00:00+03:00", pystr "2024-01-01", pystr "10:00",
   pystr "p", some (pystr "user"), pystr "hello"⟩

/-- The second flat entry produced for `tree5` (08:00 UTC). -/
def c5entry2 : FlatEntry :=
  ⟨pystr "2024-01-01T09:00:00+01:00", pystr "2024-01-01", pystr "09:00",
   pystr "p", some (pystr "user"), pystr "world"⟩

/-- C5 (counterexample): the Flat Exporter sorts by the ISO string, so for
two zone-aware records with different offsets the output keeps
`10:00+03:00` (instant 07:00 UTC) before `09:00+01:00` (instant 08:00 UTC):
consecutive timestamps strictly increase, refuting the non-increasing
invariant as stated.  Both instants are aware, hence comparable. -/
theorem c5_counterexample :
    extract_all_conversations tree5 = [c5entry1, c5entry2] ∧
    parse_timestamp_E (.str c5entry1.datetime) = some ⟨2024, 1, 1, 10, 0, 0, 0, some 180⟩ ∧
    parse_timestamp_E (.str c5entry2.datetime) = some ⟨2024, 1, 1, 9, 0, 0, 0, some 60⟩ ∧
    dtSortVal ⟨2024, 1, 1, 10, 0, 0, 0, some 180⟩ <
      dtSortVal ⟨2024, 1, 1, 9, 0, 0, 0, some 60⟩ := by
  exact ⟨rfl, rfl, rfl, by decide⟩

/-- C5 (amended): when every timestamp entering the Chronology Builder is of
one kind (all zone-aware or all zone-naive) its sort completes without
raising and yields a sequence whose instants are non-increasing across
consecutive entries; the Flat Exporter's sort always completes (string keys)
and its output is non-increasing in the lexicographic order of the ISO
timestamp strings — which coincides with instant order only when all
entries share one offset, as the counterexample shows. -/
theorem c5_sorting (pd : List Project) (tree : List ProjectDir)
    (hu : uniformAware ((timelineRaw pd).map (fun e => e.timestamp)) = true) :
    (∃ tl, build_timeline pd = .ok tl ∧
       List.Chain' (fun x y => dtSortVal y.timestamp ≤ dtSortVal x.timestamp) tl) ∧
    List.Chain' (fun x y => pyStrLe y.datetime x.datetime = true)
      (extract_all_conversations tree) := by
  constructor
  · refine ⟨sortDescLe
        (fun x y : TimelineEntry =>
          decide (dtSortVal (y.timestamp) ≤ dtSortVal (x.timestamp)))
        (timelineRaw pd), ?_, ?_⟩
    · rw [build_timeline, pySortDescDT, if_pos hu]
    · have hp := pairwise_sortDescLe
        (fun x y : TimelineEntry => decide (dtSortVal (y.timestamp) ≤ dtSortVal (x.timestamp)))
        (fun a b => by
          rcases Int.le_total (dtSortVal b.timestamp) (dtSortVal a.timestamp) with h | h
          · left; exact decide_eq_true h
          · right; exact decide_eq_true h)
        (fun a b c hab hbc => by
          have h1 := of_decide_eq_true hab
          have h2 := of_decide_eq_true hbc
          exact decide_eq_true (le_trans h2 h1))
        (timelineRaw pd)
      have hp2 := hp.imp (fun h => of_decide_eq_true h)
      exact hp2.chain'
  · have hp := pairwise_sortDescLe
      (fun a b : FlatEntry => pyStrLe b.datetime a.datetime)
      (fun a b => pyStrLe_total b.datetime a.datetime)
      (fun a b c hab hbc => pyStrLe_trans c.datetime b.datetime a.datetime hbc hab)
      (List.foldl extractProject [] tree)
    exact hp.chain'

/-- A concrete projects-data value whose timeline instants are uniformly
zone-naive. -/
def pdW : List Project :=
  [⟨pystr "p", pystr "path", 2, 1, some dtJan1at10, some dtJan1at12,
    [⟨pystr "a.jsonl", 0, 0, 2, some dtJan1at10, some dtJan1at12⟩]⟩]

/-- Witness for C5 at a concrete uniform projects-data value and tree. -/
theorem c5_sorting_witness :
    (∃ tl, build_timeline pdW = .ok tl ∧
       List.Chain' (fun x y => dtSortVal y.timestamp ≤ dtSortVal x.timestamp) tl) ∧
    List.Chain' (fun x y => pyStrLe y.datetime x.datetime = true)
      (extract_all_conversations tree5) :=
  c5_sorting pdW tree5 rfl

/-- C6 (amended): for every included project, the Chronology Builder's
contribution has at most 2 entries per retained file summary, and the
summary list counts each distinct retained file at most twice — once from
the `*.jsonl` glob and once more from the overlapping `agent-*.jsonl` glob —
so the contribution is bounded by 2 times the summary count and by 4 times
the number of distinct retained files (files of the directory listing whose
age is within the cutoff and whose message count is positive); the claimed
2×F bound fails for retained agent files, see the counterexample. -/
theorem c6_chronology_bound (now : Int) (p : ProjectDir) (proj : Project)
    (hscan : scanProject now p = .ok (some proj)) :
    (listConcatMap (mkTimelineEntries proj.name) proj.files).length ≤
        2 * proj.files_count ∧
    proj.files_count ≤
        2 * ((p.files.filter (fun f => isJsonlName f.name)).filter
              (retainedPositive now)).length ∧
    (listConcatMap (mkTimelineEntries proj.name) proj.files).length ≤
        4 * ((p.files.filter (fun f => isJsonlName f.name)).filter
              (retainedPositive now)).length := by
  obtain ⟨_, _, hfc, hflen⟩ := scanProject_ok_some now p proj hscan
  have hb := listConcatMap_length_le (mkTimelineEntries proj.name) 2
    (fun fs => mkTimelineEntries_length_le proj.name fs) proj.files
  rw [hflen] at hb
  have hcount : proj.files_count ≤
      2 * ((p.files.filter (fun f => isJsonlName f.name)).filter
            (retainedPositive now)).length := by
    rw [hfc]
    exact projAllFiles_retained_le now p
  exact ⟨hb, hcount, le_trans hb (by omega)⟩

/-- The single project directory with one agent-prefixed file used to refute
the 2×F chronology bound. -/
def proj6 : ProjectDir := ⟨pystr "p", true, [⟨pystr "agent-a.jsonl", 0, [.val recTsA]⟩]⟩

/-- C6 (counterexample): a project with exactly one distinct retained log
file (an `agent-*.jsonl` file, retained with one counted message) produces a
chronology of 4 entries, because the file matches both globs and is scanned
twice: 4 > 2 × 1. -/
theorem c6_counterexample :
    ∃ pd tl, scan_all_projects 0 [proj6] = .ok pd ∧ build_timeline pd = .ok tl ∧
      proj6.files.length = 1 ∧
      ((proj6.files.filter (fun f => isJsonlName f.name)).filter
        (retainedPositive 0)).length = 1 ∧
      tl.length = 4 ∧ ¬ (tl.length ≤ 2 * 1) := by
  refine ⟨_, _, rfl, rfl, rfl, rfl, rfl, by decide⟩

/-- C7: in the summary pipeline a file whose age in whole days is exactly
the cutoff 7 is retained — it is scanned and, with a positive count, its
project is included with the file's summary — while a file of age 8 is
excluded (for a single-file project the project disappears entirely). -/
theorem c7_age_cutoff_boundary (now : Int) (f : FileEntry) (pname : PyStr)
    (hjson : isJsonlName f.name = true) (hagent : isAgentJsonlName f.name = false)
    (hcount : 0 < (analyze_jsonl_file f.lines).message_count) :
    (getFileAgeDays now f.mtime = 7 →
      ∃ proj, scanProject now ⟨pname, true, [f]⟩ = .ok (some proj) ∧
        proj.files_count = 1 ∧
        proj.files.map (fun s => s.filename) = [f.name] ∧
        proj.files.map (fun s => s.age_days) = [7]) ∧
    (getFileAgeDays now f.mtime = 8 → scanProject now ⟨pname, true, [f]⟩ = .ok none) := by
  have hall : (List.filter (fun g : FileEntry => isJsonlName g.name) [f]
      ++ List.filter (fun g : FileEntry => isAgentJsonlName g.name) [f]) = [f] := by
    simp [List.filter_cons, hjson, hagent]
  constructor
  · intro hage
    have hstep : scanFileStep now ⟨[], 0, none, none⟩ f =
        .ok ⟨[⟨f.name, 7, f.mtime, (analyze_jsonl_file f.lines).message_count,
               (analyze_jsonl_file f.lines).first_timestamp,
               (analyze_jsonl_file f.lines).last_timestamp⟩],
             (analyze_jsonl_file f.lines).message_count,
             (analyze_jsonl_file f.lines).first_timestamp,
             (analyze_jsonl_file f.lines).last_timestamp⟩ := by
      rw [scanFileStep]
      rw [hage, if_pos (by norm_num : (7 : Int) ≤ 7), if_pos hcount]
      rcases hft : (analyze_jsonl_file f.lines).first_timestamp with _ | ft <;>
        rcases hlt : (analyze_jsonl_file f.lines).last_timestamp with _ | lt <;>
          simp [updateEarliest, updateLatest, appendSummary, bind, Except.bind,
            hage, hft, hlt]
    have hgo : scanFilesGo now ⟨[], 0, none, none⟩ [f] =
        .ok ⟨[⟨f.name, 7, f.mtime, (analyze_jsonl_file f.lines).message_count,
               (analyze_jsonl_file f.lines).first_timestamp,
               (analyze_jsonl_file f.lines).last_timestamp⟩],
             (analyze_jsonl_file f.lines).message_count,
             (analyze_jsonl_file f.lines).first_timestamp,
             (analyze_jsonl_file f.lines).last_timestamp⟩ := by
      rw [scanFilesGo]
      simp only [bind, Except.bind, hstep, scanFilesGo]
      rfl
    refine ⟨⟨get_project_name_A (projPathStr pname), projPathStr pname,
      (analyze_jsonl_file f.lines).message_count, 1,
      (analyze_jsonl_file f.lines).first_timestamp,
      (analyze_jsonl_file f.lines).last_timestamp,
      [⟨f.name, 7, f.mtime, (analyze_jsonl_file f.lines).message_count,
        (analyze_jsonl_file f.lines).first_timestamp,
        (analyze_jsonl_file f.lines).last_timestamp⟩]⟩, ?_, rfl, rfl, rfl⟩
    rw [scanProject]
    simp only [bind, Except.bind, hall, hgo]
    rfl
  · intro hage
    have hstep : scanFileStep now ⟨[], 0, none, none⟩ f = .ok ⟨[], 0, none, none⟩ := by
      rw [scanFileStep]
      rw [hage, if_neg (by norm_num : ¬ (8 : Int) ≤ 7)]
      rfl
    have hgo : scanFilesGo now ⟨[], 0, none, none⟩ [f] = .ok ⟨[], 0, none, none⟩ := by
      rw [scanFilesGo]
      simp only [bind, Except.bind, hstep, scanFilesGo]
      rfl
    rw [scanProject]
    simp only [bind, Except.bind, hall, hgo]
    rfl

/-- The concrete file used for the C7 witness: modified at epoch 0 with one
valid record. -/
def c7file : FileEntry := ⟨pystr "b.jsonl", 0, [.val recTsA]⟩

/-- Witness for C7: with `now` exactly 7 days after the modification time
the file's age is 7 and the project is included; at 8 days it is excluded. -/
theorem c7_age_cutoff_boundary_witness :
    (∃ proj, scanProject (7 * 86400) ⟨pystr "q", true, [c7file]⟩ = .ok (some proj) ∧
       proj.files_count = 1 ∧
       proj.files.map (fun s => s.filename) = [c7file.name] ∧
       proj.files.map (fun s => s.age_days) = [7]) ∧
    scanProject (8 * 86400) ⟨pystr "q", true, [c7file]⟩ = .ok none := by
  refine ⟨(c7_age_cutoff_boundary (7 * 86400) c7file (pystr "q") rfl rfl
      (by decide)).1 (by decide),
    (c7_age_cutoff_boundary (8 * 86400) c7file (pystr "q") rfl rfl
      (by decide)).2 (by decide)⟩

/-- C8: both Timestamp Normalizers are wrapped in a bare `except` that
converts every raised exception (`AttributeError` from `.replace` on a
non-string, `ValueError` from `fromisoformat`) into the absence marker, so
for every input they return either the parsed instant of the normalized
string or `None`, and never propagate an exception; in particular the empty
string yields `None` in both pipelines. -/
theorem c8_parse_never_raises (v : JValue) :
    ((∃ e, parse_timestamp_body_A v = .error e) → parse_timestamp_A v = none) ∧
    (∀ dt, parse_timestamp_body_A v = .ok dt → parse_timestamp_A v = some dt) ∧
    ((∃ e, parse_timestamp_body_E v = .error e) → parse_timestamp_E v = none) ∧
    (∀ dt, parse_timestamp_body_E v = .ok dt → parse_timestamp_E v = some dt) ∧
    parse_timestamp_A (.str []) = none ∧ parse_timestamp_E (.str []) = none := by
  refine ⟨?_, ?_, ?_, ?_, rfl, rfl⟩
  · rintro ⟨e, he⟩
    rw [parse_timestamp_A, he]
    rfl
  · intro dt hdt
    rw [parse_timestamp_A, hdt]
    rfl
  · rintro ⟨e, he⟩
    rw [parse_timestamp_E, he]
    rfl
  · intro dt hdt
    rw [parse_timestamp_E, hdt]
    rfl

/-- Witness for C8 at concrete malformed inputs: an unparsable string (a
`ValueError` inside the try block) and a non-string (an `AttributeError`),
both converted to the absence marker. -/
theorem c8_parse_never_raises_witness :
    parse_timestamp_A (.str (pystr "not a date")) = none ∧
    parse_timestamp_E (.int 5) = none := by
  refine ⟨(c8_parse_never_raises (.str (pystr "not a date"))).1 ⟨.valueError, rfl⟩,
    (c8_parse_never_raises (.int 5)).2.2.1 ⟨.attributeError, rfl⟩⟩

/-- C9: a decoded record whose timestamp expression evaluates without
raising but yields no parsable instant is dropped by both pipelines with no
effect at all: the whole summary scan of a file (count, bounds, entries) and
the whole flat-export scan are the same as if the line were absent. -/
theorem c9_timestampless_contributes_nothing (fields : List (PyStr × JValue))
    (a b : JValue)
    (hA : tsArgA fields = .ok a) (hpa : parse_timestamp_A a = none)
    (hE : tsArgE fields = .ok b) (hpb : parse_timestamp_E b = none)
    (pre post : List RawLine) (pname : PyStr) (acc : List FlatEntry) :
    analyze_jsonl_file (pre ++ .val (.obj fields) :: post) =
      analyze_jsonl_file (pre ++ post) ∧
    extractFileGo pname acc (pre ++ .val (.obj fields) :: post) =
      extractFileGo pname acc (pre ++ post) :=
  ⟨analyzeGo_skip_middle fields a hA hpa pre analyzeInit post,
   extractFileGo_skip_middle pname fields b hE hpb pre acc post⟩

/-- A record whose timestamp field holds an unparsable string. -/
def recBadTs : JValue := .obj [(pystr "timestamp", .str (pystr "oops"))]

/-- Witness for C9: inserting the unparsable-timestamp record between two
good records changes neither pipeline's file scan. -/
theorem c9_timestampless_witness :
    analyze_jsonl_file [.val recTsA, .val recBadTs, .val recTsB] =
      analyze_jsonl_file [.val recTsA, .val recTsB] ∧
    extractFileGo (pystr "Demo") [] [.val recTsA, .val recBadTs, .val recTsB] =
      extractFileGo (pystr "Demo") [] [.val recTsA, .val recTsB] := by
  exact c9_timestampless_contributes_nothing
    [(pystr "timestamp", .str (pystr "oops"))]
    (.str (pystr "oops")) (.str (pystr "oops")) rfl rfl rfl rfl
    [.val recTsA] [.val recTsB] (pystr "Demo") []

/-- C10: every project in the summary pipeline's output carries both an
earliest-activity and a latest-activity instant (inclusion requires a
retained file with positive count, and a positive count forces both bounds
during the file scan), so the descending sort's `or datetime.min` fallback
key is never used: the key always equals the project's own latest
instant. -/
theorem c10_sort_fallback_unneeded (now : Int) (tree : List ProjectDir)
    (pd : List Project) (h : scan_all_projects now tree = .ok pd) :
    ∀ proj ∈ pd, ∃ e l, proj.earliest_activity = some e ∧
      proj.latest_activity = some l ∧ proj.latest_activity.getD dtMin = l :=
  scan_all_projects_bounds now tree pd h

/-- Witness for C10 on a concrete tree accepted by the scanner. -/
theorem c10_sort_fallback_unneeded_witness :
    ∃ pd, scan_all_projects 0 [proj6] = .ok pd ∧
      ∀ proj ∈ pd, ∃ e l, proj.earliest_activity = some e ∧
        proj.latest_activity = some l ∧ proj.latest_activity.getD dtMin = l :=
  ⟨_, rfl, c10_sort_fallback_unneeded 0 [proj6] _ rfl⟩

/-- Witness for the amended C6 bounds on the concrete agent-file project:
the contribution (4 entries) meets the amended bounds with files_count = 2
and one distinct retained file. -/
theorem c6_chronology_bound_witness :
    ∃ proj, scanProject 0 proj6 = .ok (some proj) ∧
      ((listConcatMap (mkTimelineEntries proj.name) proj.files).length ≤
          2 * proj.files_count ∧
       proj.files_count ≤
          2 * ((proj6.files.filter (fun f => isJsonlName f.name)).filter
                (retainedPositive 0)).length ∧
       (listConcatMap (mkTimelineEntries proj.name) proj.files).length ≤
          4 * ((proj6.files.filter (fun f => isJsonlName f.name)).filter
                (retainedPositive 0)).length) :=
  ⟨_, rfl, c6_chronology_bound 0 proj6 _ rfl⟩
